import Mathlib

/-!
Verification of the two index-generating scripts of the snowden-archive
repository: `generate_file_table.py` (Markdown inventory) and
`generate_local_index-hf.py` (HTML index).  Python strings are modelled as
lists of characters; the scripts' pure core (year extraction, grouping,
sorting, rendering, template substitution) is embedded as executable Lean
functions, and the filesystem / network / process boundary (file existence,
remote listing result, exit status) is made an explicit parameter or an
`Except` result.
-/

namespace Snowden

/-- Python `str`, modelled as a list of characters. -/
abbrev Str := List Char

/-- Shorthand turning a Lean string literal into the model type. -/
def lit (s : String) : Str := s.data

/-- The `str.lower()` as used by the scripts (ASCII case folding). -/
def lowerStr (s : Str) : Str := s.map Char.toLower

/-- A regex word character (`\w`): letter, digit or underscore. -/
def isWordChar (c : Char) : Bool := c.isAlphanum || c = '_'

/-- The `\b` condition on the left of a match that begins with a digit:
the previous character (if any) must not be a word character. -/
def okBefore : Option Char → Bool
  | none => true
  | some c => !isWordChar c

/-- The `\b` condition on the right of a match that ends with a digit:
the next character (if any) must not be a word character. -/
def okAfter : Str → Bool
  | [] => true
  | c :: _ => !isWordChar c

/-- Numeric value of an ASCII digit character. -/
def digitVal (c : Char) : Nat := c.toNat - 48

/-- Attempt to match `(19\d{2}|20\d{2})\b` at the head of the remaining
input, `prev` being the character just before it (for the leading `\b`);
returns the matched year converted to an integer, as `int(m.group(0))`
does. -/
def yearHere (prev : Option Char) : Str → Option Nat
  | c1 :: c2 :: c3 :: c4 :: rest =>
    if okBefore prev && ((c1 = '1' && c2 = '9') || (c1 = '2' && c2 = '0')) &&
        c3.isDigit && c4.isDigit && okAfter rest then
      some (digitVal c1 * 1000 + digitVal c2 * 100 + digitVal c3 * 10 + digitVal c4)
    else none
  | _ => none

/-- The `re.search(r"\b(19\d{2}|20\d{2})\b", s)` followed by `int(m.group(0))`:
scan positions left to right and return the leftmost match. -/
def searchYear : Option Char → Str → Option Nat
  | _, [] => none
  | prev, c :: rest =>
    match yearHere prev (c :: rest) with
    | some y => some y
    | none => searchYear (some c) rest

/-- The `extract_year` from generate_file_table.py: the year found in one path
segment, with `999999` as the "no year" sentinel. -/
def extract_year (part : Str) : Nat :=
  match searchYear none part with
  | some y => y
  | none => 999999

/-- The year-finding loop of `group_files` in generate_file_table.py:
walk the path segments and stop at the first one whose `extract_year`
is not the sentinel (`year` stays `None` when no segment matches). -/
def findYearFT : List Str → Option Nat
  | [] => none
  | p :: rest =>
    let y := extract_year p
    if y ≠ 999999 then some y else findYearFT rest

/-- The `extract_year_from_path` from generate_local_index-hf.py: first
`19xx`/`20xx` year in any part of the path, else `None`. -/
def extract_year_from_path : List Str → Option Nat
  | [] => none
  | p :: rest =>
    match searchYear none p with
    | some y => some y
    | none => extract_year_from_path rest

/-- Spec-side predicate (from the specification's words): segment `s`
carries, starting at position `k`, a 4-digit token matching
`\b(19\d{2}|20\d{2})\b` whose integer value is `y`. -/
def SegHasYearAt (s : Str) (k : Nat) (y : Nat) : Prop :=
  ∃ pre c1 c2 c3 c4 post,
    s = pre ++ c1 :: c2 :: c3 :: c4 :: post ∧ pre.length = k ∧
    (pre = [] ∨ ∃ c, pre.getLast? = some c ∧ isWordChar c = false) ∧
    (post = [] ∨ ∃ c, post.head? = some c ∧ isWordChar c = false) ∧
    ((c1 = '1' ∧ c2 = '9') ∨ (c1 = '2' ∧ c2 = '0')) ∧
    c3.isDigit = true ∧ c4.isDigit = true ∧
    y = digitVal c1 * 1000 + digitVal c2 * 100 + digitVal c3 * 10 + digitVal c4

/-- Spec-side characterisation of the year extractor on a whole segment
sequence: `none` means no segment carries a token anywhere; `some y`
means some segment carries token `y`, all earlier segments carry no
token, and within that segment no earlier position carries one. -/
def YearSpec (parts : List Str) : Option Nat → Prop
  | none => ∀ p ∈ parts, ∀ k y, ¬ SegHasYearAt p k y
  | some y => ∃ ps₁ p ps₂ k,
      parts = ps₁ ++ p :: ps₂ ∧
      (∀ q ∈ ps₁, ∀ k' y', ¬ SegHasYearAt q k' y') ∧
      SegHasYearAt p k y ∧
      (∀ k' y', k' < k → ¬ SegHasYearAt p k' y')

/-! Insertion-ordered dictionaries (Python `dict`), as association lists. -/

/-- The `d[k]`: look a key up in an insertion-ordered dictionary. -/
def alookup {α : Type} [DecidableEq α] {β : Type} (k : α) : List (α × β) → Option β
  | [] => none
  | kv :: rest => if k = kv.1 then some kv.2 else alookup k rest

/-- The `d.setdefault(k, []).append(x)` on the inner (year → file list) dict:
append `x` to the bucket of `k`, creating the bucket at the end on first
use. -/
def insInner {κ₂ ε : Type} [DecidableEq κ₂] (k : κ₂) (x : ε) :
    List (κ₂ × List ε) → List (κ₂ × List ε)
  | [] => [(k, [x])]
  | kv :: rest =>
    if k = kv.1 then (kv.1, kv.2 ++ [x]) :: rest else kv :: insInner k x rest

/-- The `d.setdefault(k₁, {})` followed by
`d[k₁].setdefault(k₂, []).append(x)` on the two-level
(top directory → year → files) dict. -/
def ins2 {κ₁ κ₂ ε : Type} [DecidableEq κ₁] [DecidableEq κ₂] (k₁ : κ₁) (k₂ : κ₂) (x : ε) :
    List (κ₁ × List (κ₂ × List ε)) → List (κ₁ × List (κ₂ × List ε))
  | [] => [(k₁, insInner k₂ x [])]
  | kv :: rest =>
    if k₁ = kv.1 then (kv.1, insInner k₂ x kv.2) :: rest else kv :: ins2 k₁ k₂ x rest

/-- All entries of an inner dict, in dict-and-bucket order. -/
def joinInner {κ₂ ε : Type} (inner : List (κ₂ × List ε)) : List ε :=
  inner.flatMap (fun p => p.2)

/-- All entries of a two-level dict, in dict-and-bucket order. -/
def join2 {κ₁ κ₂ ε : Type} (st : List (κ₁ × List (κ₂ × List ε))) : List ε :=
  st.flatMap (fun p => joinInner p.2)

/-- The bucket of a (top directory, year) pair, `[]` when absent. -/
def lookup2 {κ₁ κ₂ ε : Type} [DecidableEq κ₁] [DecidableEq κ₂]
    (st : List (κ₁ × List (κ₂ × List ε))) (k₁ : κ₁) (k₂ : κ₂) : List ε :=
  (alookup k₂ ((alookup k₁ st).getD [])).getD []

/-! The generic two-key grouping loop, instantiated by both scripts. -/

section GenericGroup

variable {κ₁ κ₂ ε : Type} [DecidableEq κ₁] [DecidableEq κ₂]

/-- One grouping-loop iteration: skip the item when it has no top-level
key, otherwise insert it into its (key1, key2) bucket. -/
def gstep (key1 : ε → Option κ₁) (key2 : ε → κ₂)
    (st : List (κ₁ × List (κ₂ × List ε))) (x : ε) :
    List (κ₁ × List (κ₂ × List ε)) :=
  match key1 x with
  | none => st
  | some k => ins2 k (key2 x) x st

/-- The grouping loop, starting from the empty dict. -/
def ggroup (key1 : ε → Option κ₁) (key2 : ε → κ₂) (l : List ε) :
    List (κ₁ × List (κ₂ × List ε)) :=
  l.foldl (gstep key1 key2) []

/-- The structural invariant every grouping state satisfies: outer keys
are distinct, inner keys are distinct, buckets are non-empty. -/
def GoodState (st : List (κ₁ × List (κ₂ × List ε))) : Prop :=
  (st.map Prod.fst).Nodup ∧ (∀ p ∈ st, (p.2.map Prod.fst).Nodup) ∧
    (∀ p ∈ st, ∀ q ∈ p.2, q.2 ≠ [])

end GenericGroup


/-! Data model and the two groupers of the scripts. -/

/-- A file descriptor of the Markdown script: the path of the file
relative to the scan root, as its list of segments (`rel.parts`). -/
structure FD where
  parts : List Str
deriving DecidableEq

/-- A file entry of the HTML script: `{"path": ..., "name": ..., "year": ...}`. -/
structure Entry where
  path : Str
  name : Str
  year : Option Nat
deriving DecidableEq

/-- The `path.split("/", 1)[0]`: the top-level directory of a posix path
string (the whole string when it contains no slash). -/
def topDir (p : Str) : Str := p.takeWhile (fun c => c != '/')

/-- The year key of the HTML script's grouping: `f["year"] if f["year"]
else "no-year"` (Python truthiness: `None` and `0` select the sentinel). -/
inductive YKey where
  | yr : Nat → YKey
  | noYear : YKey
deriving DecidableEq

def yearKey (e : Entry) : YKey :=
  match e.year with
  | some n => if n ≠ 0 then YKey.yr n else YKey.noYear
  | none => YKey.noYear

/-- The `group_files` of generate_file_table.py: files whose relative path
has no segments are skipped; the rest are appended to the bucket of
(first segment, first year found in the segments). -/
def group_files (files : List FD) : List (Str × List (Option Nat × List FD)) :=
  files.foldl (fun st f =>
    match f.parts with
    | [] => st
    | t :: _ => ins2 t (findYearFT f.parts) f st) []

/-- The grouping loop of `generate_html` in generate_local_index-hf.py:
every entry is appended to the bucket of (top directory, year key). -/
def htmlGrouped (entries : List Entry) : List (Str × List (YKey × List Entry)) :=
  entries.foldl (fun st e => ins2 (topDir e.path) (yearKey e) e st) []

/-- The Markdown script's bucket of a (top directory, year) pair. -/
def mdBucket (files : List FD) (t : Str) (y : Option Nat) : List FD :=
  lookup2 (group_files files) t y

/-- The HTML script's bucket of a (top directory, year key) pair. -/
def htmlBucket (entries : List Entry) (t : Str) (y : YKey) : List Entry :=
  lookup2 (htmlGrouped entries) t y

/-! Decimal rendering (`str(n)`) and parsing (`int(s)`), `str.replace`,
and the sort predicates used by `sorted(..., key=...)`. -/

/-- Accumulator loop of decimal rendering: prepend the digits of `n`. -/
def natCharsAux (n : Nat) (acc : Str) : Str :=
  if h : n = 0 then acc
  else natCharsAux (n / 10) (Nat.digitChar (n % 10) :: acc)
termination_by n
decreasing_by exact Nat.div_lt_self (Nat.pos_of_ne_zero h) (by norm_num)

/-- The `str(n)` for a natural number: its decimal digits. -/
def natChars (n : Nat) : Str :=
  if n = 0 then ['0'] else natCharsAux n []

/-- The `int(s)` on a decimal-digit string. -/
def natDigits (s : Str) : Nat :=
  s.foldl (fun a c => a * 10 + (c.toNat - 48)) 0

/-- The value obtained by appending the decimal digits of `n` after an
accumulated value `a`. -/
def pushDigits (a : Nat) (n : Nat) : Nat :=
  if n = 0 then a else pushDigits a (n / 10) * 10 + n % 10
termination_by n
decreasing_by exact Nat.div_lt_self (Nat.pos_of_ne_zero (by assumption)) (by norm_num)

/-- The `a.isPrefixOf b` for strings, written out to match Python's substring
test at the head of a string. -/
def strStarts : Str → Str → Bool
  | [], _ => true
  | _ :: _, [] => false
  | p :: ps, c :: cs => p == c && strStarts ps cs

/-- The `s.endswith(pat)`. -/
def strEnds (pat s : Str) : Bool := strStarts pat.reverse s.reverse

/-- Python `s.replace(old, new)` for a non-empty `old`: scan left to
right, replacing non-overlapping occurrences. -/
def pyReplace (old new : Str) : Str → Str
  | [] => []
  | c :: cs =>
    if !old.isEmpty && strStarts old (c :: cs) then
      new ++ pyReplace old new (cs.drop (old.length - 1))
    else
      c :: pyReplace old new cs
termination_by s => s.length
decreasing_by
  all_goals simp only [List.length_cons, List.length_drop]
  all_goals omega

/-- The comparison used by `sorted(..., key=k)`: compare the keys with `≤`. -/
def keyLe {α κ : Type} [LinearOrder κ] (key : α → κ) (a b : α) : Bool :=
  decide (key a ≤ key b)

/-! The Markdown renderer (`generate_markdown_inventory`). -/

/-- Upper-case hexadecimal digit, as `urllib.parse.quote` emits. -/
def hexUpper (n : Nat) : Char :=
  if n < 10 then Nat.digitChar n else Char.ofNat (55 + n)

/-- The `%XX` encoding of one byte. -/
def pctEncodeByte (b : Nat) : Str := ['%', hexUpper (b / 16), hexUpper (b % 16)]

/-- Percent-encoding of one character via its UTF-8 bytes. -/
def utf8Pct (c : Char) : Str :=
  (String.utf8EncodeChar c).flatMap (fun b => pctEncodeByte b.toNat)

/-- The always-safe characters of `urllib.parse.quote`. -/
def alwaysSafe (c : Char) : Bool :=
  c.isAlphanum || c = '_' || c = '.' || c = '-' || c = '~'

/-- The `urllib.parse.quote(s, safe="/")`. -/
def quoteSafeSlash (s : Str) : Str :=
  s.flatMap (fun c => if alwaysSafe c || c = '/' then [c] else utf8Pct c)

/-- The `urllib.parse.quote(s, safe=":/")`. -/
def quoteSafeColonSlash (s : Str) : Str :=
  s.flatMap (fun c => if alwaysSafe c || c = '/' || c = ':' then [c] else utf8Pct c)

/-- The `rel.as_posix()` / `str(rel)`: join path segments with `/`. -/
def joinParts : List Str → Str
  | [] => []
  | [p] => p
  | p :: q :: rest => p ++ '/' :: joinParts (q :: rest)

/-- The `github_link`: `[path](percent-encoded-path)`. -/
def github_link (rel : List Str) : Str :=
  lit "[" ++ joinParts rel ++ lit "](" ++ quoteSafeSlash (joinParts rel) ++ lit ")"

/-- The `fp.name`: the last path segment. -/
def fdName (f : FD) : Str := f.parts.getLastD []

/-- The `fp.name.replace("|", "\\|")`. -/
def mdEscapeName (s : Str) : Str := pyReplace (lit "|") (lit "\\|") s

/-- One Markdown table row: `| {name} | {link} |`. -/
def mdFileRow (f : FD) : Str :=
  lit "| " ++ mdEscapeName (fdName f) ++ lit " | " ++ github_link f.parts ++ lit " |"

/-- The `sorted(structure.keys())`. -/
def mdDirs (st : List (Str × List (Option Nat × List FD))) : List Str :=
  (st.map Prod.fst).mergeSort (keyLe (fun s : Str => s))

/-- The `sorted(y for y in year_groups if y is not None)` followed by
appending `None` when present. -/
def mdYears (inner : List (Option Nat × List FD)) : List (Option Nat) :=
  ((((inner.map Prod.fst).filterMap id).mergeSort (keyLe (fun n : Nat => n))).map some)
    ++ (if (inner.map Prod.fst).contains none then [none] else [])

/-- The `sorted(year_groups[year], key=lambda p: p.relative_to(root_dir))`. -/
def mdSortBucket (files : List FD) : List FD :=
  files.mergeSort (keyLe (fun f : FD => joinParts f.parts))

/-- The `"No Year Folder" if year is None else str(year)`. -/
def mdYearHeader : Option Nat → Str
  | none => lit "No Year Folder"
  | some n => natChars n

/-- The table rows emitted for one year group (no rows for the dead
empty-bucket branch). -/
def mdYearRows (inner : List (Option Nat × List FD)) (y : Option Nat) : List Str :=
  let files := mdSortBucket ((alookup y inner).getD [])
  if files.isEmpty then [] else files.map mdFileRow

/-- All lines emitted for one year group: subheading, table header,
separator, rows, blank line — or nothing when the bucket is empty. -/
def mdYearBlock (inner : List (Option Nat × List FD)) (y : Option Nat) : List Str :=
  let files := mdSortBucket ((alookup y inner).getD [])
  if files.isEmpty then []
  else
    (lit "#### " ++ mdYearHeader y ++ lit "\n") ::
    lit "| Filename | FilePath |" ::
    lit "|----------|----------|" ::
    (mdYearRows inner y ++ [[]])

/-- The count added to `total` for one year group (added before the
empty-bucket check). -/
def mdYearCount (inner : List (Option Nat × List FD)) (y : Option Nat) : Nat :=
  (mdSortBucket ((alookup y inner).getD [])).length

/-- All lines emitted for one top-level directory. -/
def mdDirBlock (st : List (Str × List (Option Nat × List FD))) (d : Str) : List Str :=
  (lit "### " ++ d ++ lit "\n") ::
  ((mdYears ((alookup d st).getD [])).flatMap
      (fun y => mdYearBlock ((alookup d st).getD []) y)
    ++ [lit "---\n"])

/-- The `lines` list built by `generate_markdown_inventory`. -/
def mdLines (files : List FD) : List Str :=
  lit "# Snowden Archive – File Inventory\n" ::
  lit "> Auto-generated • All paths are clickable on GitHub\n" ::
  lit "## Directories\n" ::
  (mdDirs (group_files files)).flatMap (fun d => mdDirBlock (group_files files) d)

/-- The final `total` accumulated by the generator. -/
def mdTotal (files : List FD) : Nat :=
  ((mdDirs (group_files files)).map (fun d =>
    ((mdYears ((alookup d (group_files files)).getD [])).map
      (fun y => mdYearCount ((alookup d (group_files files)).getD []) y)).sum)).sum

/-- All table rows of the rendered document, in render order. -/
def mdRows (files : List FD) : List Str :=
  (mdDirs (group_files files)).flatMap (fun d =>
    (mdYears ((alookup d (group_files files)).getD [])).flatMap
      (fun y => mdYearRows ((alookup d (group_files files)).getD []) y))

/-- The `s.rstrip()` (trailing ASCII whitespace). -/
def rstrip (s : Str) : Str :=
  (s.reverse.dropWhile (fun c => c.isWhitespace)).reverse

/-- The `"\n".join(lines)`. -/
def joinLinesNL : List Str → Str
  | [] => []
  | [l] => l
  | l :: q :: rest => l ++ '\n' :: joinLinesNL (q :: rest)

/-- The `generate_markdown_inventory`: the returned content string
(`"\n".join(lines).rstrip() + "\n"`) and the reported total. -/
def generate_markdown_inventory (files : List FD) : Str × Nat :=
  (rstrip (joinLinesNL (mdLines files)) ++ ['\n'], mdTotal files)

/-! The HTML renderer (`generate_html`) and `main`. -/

/-- The `f["name"].replace("|", "Vertical Bar")`. -/
def htmlSafeName (s : Str) : Str := pyReplace (lit "|") (lit "Vertical Bar") s

/-- The fixed dataset id `HF_REPO_ID`. -/
def HF_REPO_ID : Str := lit "yukioitsuki/snowden_archived"

/-- The download URL pattern for one file path. -/
def hfUrl (path : Str) : Str :=
  lit "https://huggingface.co/datasets/" ++ HF_REPO_ID ++ lit "/resolve/main/" ++ path

/-- The `urllib.parse.quote(hf_url, safe=":/")`. -/
def hfLink (path : Str) : Str := quoteSafeColonSlash (hfUrl path)

/-- One HTML table row for a file entry. -/
def htmlFileRow (e : Entry) : Str :=
  lit "          <tr><td><a href=\"" ++ hfLink e.path ++ lit "\" target=\"_blank\">" ++
  htmlSafeName e.name ++ lit "</a></td><td><code>" ++ e.path ++
  lit "</code></td></tr>\n"

/-- The `sorted(flist, key=lambda x: x["path"].lower())`. -/
def htmlSortFiles (es : List Entry) : List Entry :=
  es.mergeSort (keyLe (fun e : Entry => lowerStr e.path))

/-- The `"No Year Folder" if y_key == "no-year" else str(y_key)`. -/
def displayOf : YKey → Str
  | YKey.yr n => natChars n
  | YKey.noYear => lit "No Year Folder"

/-- Python dict assignment `m[k] = v` (replace or append). -/
def updA {α β : Type} [DecidableEq α] (k : α) (v : β) : List (α × β) → List (α × β)
  | [] => [(k, v)]
  | kv :: rest => if kv.1 = k then (k, v) :: rest else kv :: updA k v rest

/-- The `year_map` dict: display name → files sorted case-insensitively
by path. -/
def year_map (inner : List (YKey × List Entry)) : List (Str × List Entry) :=
  inner.foldl (fun m p => updA (displayOf p.1) (htmlSortFiles p.2) m) []

/-- The `sorted((y for y in year_map if y != "No Year Folder"), key=int)`,
then `append("No Year Folder")` when present. -/
def htmlSortedYears (ym : List (Str × List Entry)) : List Str :=
  (((ym.map Prod.fst).filter
      (fun s => !decide (s = lit "No Year Folder"))).mergeSort (keyLe natDigits))
    ++ (if (ym.map Prod.fst).contains (lit "No Year Folder")
        then [lit "No Year Folder"] else [])

/-- The HTML fragment for one year group. -/
def htmlYearBlock (yname : Str) (files : List Entry) : Str :=
  lit "    <div class=\"year collapsed\">\n" ++
  lit "      <div class=\"year-header\">" ++ yname ++
  lit " <span class=\"count\">(" ++ natChars files.length ++
  lit " PDFs)</span><span class=\"arrow\"></span></div>\n" ++
  lit "      <div class=\"content\">\n" ++
  lit "        <div class=\"table-wrapper\"><table><thead><tr><th>Document</th><th>Path</th></tr></thead><tbody>\n" ++
  (files.flatMap htmlFileRow) ++
  lit "        </tbody></table></div>\n" ++
  lit "      </div></div>\n"

/-- The `sorted(grouped.keys())`. -/
def htmlDirs (st : List (Str × List (YKey × List Entry))) : List Str :=
  (st.map Prod.fst).mergeSort (keyLe (fun s : Str => s))

/-- The HTML fragment for one top-level directory. -/
def htmlDirBlock (st : List (Str × List (YKey × List Entry))) (d : Str) : Str :=
  lit "<div class=\"directory collapsed\">\n" ++
  lit "  <div class=\"dir-header\">" ++ d ++
  lit "<span class=\"arrow\"></span></div>\n" ++
  lit "  <div class=\"content\">\n" ++
  ((htmlSortedYears (year_map ((alookup d st).getD []))).flatMap
    (fun yn => htmlYearBlock yn
      ((alookup yn (year_map ((alookup d st).getD []))).getD []))) ++
  lit "  </div></div>\n"

/-- The injected `content` string built by `generate_html`. -/
def generate_html_content (entries : List Entry) : Str :=
  (htmlDirs (htmlGrouped entries)).flatMap
    (fun d => htmlDirBlock (htmlGrouped entries) d)

/-- The `template.replace("{TOTAL_FILES}", str(total_files)).replace("<!--
INJECTED_CONTENT -->", content)`. -/
def template_substitute (tpl : Str) (total : Nat) (content : Str) : Str :=
  pyReplace (lit "<!-- INJECTED_CONTENT -->") content
    (pyReplace (lit "\x7bTOTAL_FILES\x7d") (natChars total) tpl)

/-- The tail of `generate_html`: check the template file, then substitute
and write.  The filesystem boundary is explicit: `tplExists`/`tpl` stand
for `templates.html`, `Except.error ()` for `sys.exit(1)` (no output
written), `Except.ok s` for writing `index_local.html` with content `s`. -/
def generate_html (tplExists : Bool) (tpl : Str) (entries : List Entry)
    (total : Nat) : Except Unit Str :=
  let content := generate_html_content entries
  if tplExists then Except.ok (template_substitute tpl total content)
  else Except.error ()

/-- The `get_pdf_files_from_hf`: the remote call either returns a listing or
raises; an exception is caught and turned into `[]`; a listing is
filtered to names ending in `.pdf` case-insensitively. -/
def get_pdf_files_from_hf (remote : Except Str (List Str)) : List Str :=
  match remote with
  | Except.ok files => files.filter (fun f => strEnds (lit ".pdf") (lowerStr f))
  | Except.error _ => []

/-- The `s.split("/")`. -/
def splitSlash : Str → List Str
  | [] => [[]]
  | c :: cs =>
    let r := splitSlash cs
    if c == '/' then [] :: r else (c :: r.headD []) :: r.tail

/-- The `Path(path).parts` for a relative posix path: the non-empty,
non-`.` slash-separated components. -/
def pathParts (p : Str) : List Str :=
  (splitSlash p).filter (fun s => !s.isEmpty && !(s == lit "."))

/-- The `Path(path).name`. -/
def pathName (p : Str) : Str := (pathParts p).getLastD []

/-- One HF entry built in `main`. -/
def mkEntry (path : Str) : Entry :=
  ⟨path, pathName path, extract_year_from_path (pathParts path)⟩

/-- The `main` of generate_local_index-hf.py.  The process boundary is
explicit: `remote` is the outcome of the remote listing call,
`localEntries` the result of `scan_local_pdfs()`, and `Except.error ()`
is `sys.exit(1)` with no output file written. -/
def main_run (hfFlag : Bool) (remote : Except Str (List Str)) (fallback : Bool)
    (localEntries : List Entry) (tplExists : Bool) (tpl : Str) : Except Unit Str :=
  match (if hfFlag then
      (let hf := get_pdf_files_from_hf remote
       if !hf.isEmpty then Except.ok (hf.map mkEntry)
       else if fallback then Except.ok localEntries
       else Except.error ())
    else Except.ok localEntries) with
  | Except.error _ => Except.error ()
  | Except.ok entries =>
    if entries.isEmpty then Except.error ()
    else generate_html tplExists tpl entries entries.length

/-- The spec's order on year keys: numeric years ascending, the
"no year" sentinel strictly after every numeric year. -/
def yearOrder : Option Nat → Option Nat → Prop
  | some a, some b => a < b
  | some _, none => True
  | none, _ => False

/-- The reverse substitution: `"\\|" → "|"` (the spec's "reversing the
escape"). -/
def mdUnescape (s : Str) : Str := pyReplace (lit "\\|") (lit "|") s

theorem yearHere_iff (pre l : Str) (y : Nat) :
    yearHere pre.getLast? l = some y ↔ SegHasYearAt (pre ++ l) pre.length y := by
  constructor
  · intro h
    rcases l with _ | ⟨c1, l⟩
    · simp [yearHere] at h
    rcases l with _ | ⟨c2, l⟩
    · simp [yearHere] at h
    rcases l with _ | ⟨c3, l⟩
    · simp [yearHere] at h
    rcases l with _ | ⟨c4, rest⟩
    · simp [yearHere] at h
    rw [yearHere] at h
    split_ifs at h with hc
    · simp only [Bool.and_eq_true, Bool.or_eq_true, decide_eq_true_eq] at hc
      obtain ⟨⟨⟨⟨hb, htok⟩, h3⟩, h4⟩, ha⟩ := hc
      injection h with hval
      refine ⟨pre, c1, c2, c3, c4, rest, rfl, rfl, ?_, ?_, htok, h3, h4, hval.symm⟩
      · cases hpre : pre.getLast? with
        | none => exact Or.inl (List.getLast?_eq_none_iff.mp hpre)
        | some c =>
          rw [hpre] at hb
          simp only [okBefore, Bool.not_eq_true'] at hb
          exact Or.inr ⟨c, rfl, hb⟩
      · cases hrest : rest with
        | nil => exact Or.inl rfl
        | cons c tl =>
          rw [hrest] at ha
          simp only [okAfter, Bool.not_eq_true'] at ha
          exact Or.inr ⟨c, rfl, ha⟩
  · rintro ⟨pre', c1, c2, c3, c4, post, heq, hlen, hb, ha, htok, h3, h4, hy⟩
    obtain ⟨hpre, hl⟩ := List.append_inj heq hlen.symm
    subst hpre
    subst hl
    rw [yearHere, if_pos, hy]
    simp only [Bool.and_eq_true, Bool.or_eq_true, decide_eq_true_eq]
    refine ⟨⟨⟨⟨?_, ?_⟩, h3⟩, h4⟩, ?_⟩
    · rcases hb with hb | ⟨c, hc, hw⟩
      · rw [hb]; rfl
      · rw [hc]; simp [okBefore, hw]
    · rcases htok with ⟨e1, e2⟩ | ⟨e1, e2⟩
      · exact Or.inl ⟨e1, e2⟩
      · exact Or.inr ⟨e1, e2⟩
    · rcases ha with ha | ⟨c, hc, hw⟩
      · rw [ha]; rfl
      · rcases post with _ | ⟨c', tl⟩
        · simp at hc
        · simp only [List.head?_cons, Option.some.injEq] at hc
          subst hc
          simp [okAfter, hw]

theorem yearHere_none {pre l : Str}
    (h : yearHere pre.getLast? l = none) (y : Nat) :
    ¬ SegHasYearAt (pre ++ l) pre.length y := by
  intro hseg
  have := (yearHere_iff pre l y).mpr hseg
  rw [h] at this
  exact absurd this (by simp)

theorem searchYear_none {l : Str} : ∀ {pre : Str},
    searchYear pre.getLast? l = none →
    ∀ k y, pre.length ≤ k → ¬ SegHasYearAt (pre ++ l) k y := by
  induction l with
  | nil =>
    intro pre _ k y hk hseg
    obtain ⟨pre', c1, c2, c3, c4, post, heq, hlen, -⟩ := hseg
    have hlen2 : (pre ++ ([] : Str)).length = pre'.length + (4 + post.length) := by
      rw [heq]; simp [List.length_append]; omega
    simp only [List.append_nil] at hlen2
    omega
  | cons c rest ih =>
    intro pre h k y hk hseg
    rw [searchYear] at h
    cases hyh : yearHere pre.getLast? (c :: rest) with
    | some y' => rw [hyh] at h; exact absurd h (by simp)
    | none =>
      rw [hyh] at h
      rcases Nat.eq_or_lt_of_le hk with heq' | hlt
      · exact yearHere_none hyh y (heq' ▸ hseg)
      · have hlast : (pre ++ [c]).getLast? = some c := List.getLast?_concat pre
        have h2 : searchYear (pre ++ [c]).getLast? rest = none := by rw [hlast]; exact h
        have h3 := ih h2 k y (by simp; omega)
        rw [List.append_assoc] at h3
        exact h3 hseg

theorem searchYear_some {l : Str} : ∀ {pre : Str} {y : Nat},
    searchYear pre.getLast? l = some y →
    ∃ k, pre.length ≤ k ∧ SegHasYearAt (pre ++ l) k y ∧
      ∀ k' y', pre.length ≤ k' → k' < k → ¬ SegHasYearAt (pre ++ l) k' y' := by
  induction l with
  | nil => intro pre y h; simp [searchYear] at h
  | cons c rest ih =>
    intro pre y h
    rw [searchYear] at h
    cases hyh : yearHere pre.getLast? (c :: rest) with
    | some y' =>
      rw [hyh] at h
      injection h with hv
      subst hv
      refine ⟨pre.length, Nat.le_refl _, (yearHere_iff pre (c :: rest) y').mp hyh, ?_⟩
      intro k' y'' hk' hlt
      omega
    | none =>
      rw [hyh] at h
      have hlast : (pre ++ [c]).getLast? = some c := List.getLast?_concat pre
      have h2 : searchYear (pre ++ [c]).getLast? rest = some y := by rw [hlast]; exact h
      obtain ⟨k, hk, hseg, hmin⟩ := ih h2
      rw [List.append_assoc] at hseg hmin
      have hklen : (pre ++ [c]).length = pre.length + 1 := by simp
      refine ⟨k, by omega, hseg, ?_⟩
      intro k' y' hk' hlt
      rcases Nat.eq_or_lt_of_le hk' with heq' | hlt'
      · intro hseg'
        exact yearHere_none hyh y' (heq' ▸ hseg')
      · exact hmin k' y' (by omega) hlt

theorem isDigit_toNat {c : Char} (h : c.isDigit = true) :
    48 ≤ c.toNat ∧ c.toNat ≤ 57 := by
  simp [Char.isDigit] at h
  obtain ⟨h1, h2⟩ := h
  exact ⟨by exact_mod_cast h1, by exact_mod_cast h2⟩

theorem SegHasYearAt_range {s : Str} {k y : Nat}
    (h : SegHasYearAt s k y) : 1900 ≤ y ∧ y ≤ 2099 := by
  obtain ⟨pre, c1, c2, c3, c4, post, -, -, -, -, htok, h3, h4, hy⟩ := h
  have h3 := isDigit_toNat h3
  have h4 := isDigit_toNat h4
  subst hy
  unfold digitVal
  rcases htok with ⟨e1, e2⟩ | ⟨e1, e2⟩ <;> subst e1 <;> subst e2
  · rw [show ('1' : Char).toNat = 49 from rfl, show ('9' : Char).toNat = 57 from rfl]
    omega
  · rw [show ('2' : Char).toNat = 50 from rfl, show ('0' : Char).toNat = 48 from rfl]
    omega

theorem searchYear_range {s : Str} {y : Nat}
    (h : searchYear none s = some y) : 1900 ≤ y ∧ y ≤ 2099 := by
  have h' : searchYear ([] : Str).getLast? s = some y := h
  obtain ⟨k, -, hseg, -⟩ := searchYear_some h'
  exact SegHasYearAt_range hseg

theorem findYearFT_eq_extract_year_from_path :
    ∀ parts : List Str, findYearFT parts = extract_year_from_path parts := by
  intro parts
  induction parts with
  | nil => rfl
  | cons p rest ih =>
    rw [findYearFT, extract_year_from_path]
    cases hs : searchYear none p with
    | none =>
      have he : extract_year p = 999999 := by rw [extract_year, hs]
      simp only [he, ne_eq, not_true_eq_false, if_false, ih]
    | some y =>
      have he : extract_year p = y := by rw [extract_year, hs]
      have hy : y ≤ 2099 := (searchYear_range hs).2
      simp only [he, ne_eq]
      rw [if_pos (by omega)]

theorem extract_year_from_path_spec :
    ∀ parts : List Str, YearSpec parts (extract_year_from_path parts) := by
  intro parts
  induction parts with
  | nil => intro p hp; simp at hp
  | cons p rest ih =>
    rw [extract_year_from_path]
    cases hs : searchYear none p with
    | some y =>
      have h' : searchYear ([] : Str).getLast? p = some y := hs
      obtain ⟨k, -, hseg, hmin⟩ := searchYear_some h'
      refine ⟨[], p, rest, k, rfl, by simp, hseg, ?_⟩
      intro k' y' hlt
      exact hmin k' y' (Nat.zero_le _) hlt
    | none =>
      have hzero : ∀ k y, ¬ SegHasYearAt p k y := by
        intro k y
        have h' : searchYear ([] : Str).getLast? p = none := hs
        exact searchYear_none h' k y (Nat.zero_le _)
      cases hr : extract_year_from_path rest with
      | none =>
        rw [hr] at ih
        intro q hq k y
        rcases List.mem_cons.mp hq with rfl | hq
        · exact hzero k y
        · exact ih q hq k y
      | some y =>
        rw [hr] at ih
        obtain ⟨ps₁, q, ps₂, k, hsplit, hearly, hseg, hmin⟩ := ih
        refine ⟨p :: ps₁, q, ps₂, k, by rw [hsplit]; rfl, ?_, hseg, hmin⟩
        intro q' hq' k' y'
        rcases List.mem_cons.mp hq' with rfl | hq'
        · exact hzero k' y'
        · exact hearly q' hq' k' y'

/-- C1: scanning path segments root to leaf, the year extractors of both
scripts agree with each other; the HF extractor returns the value of the
first word-bounded 4-digit `19xx`/`20xx` token (first match wins, earlier
segments and earlier positions take priority) and `none` when no segment
carries such a token; every such token's value lies in `[1900, 2099]`. -/
theorem c1_year_extractor_first_match :
    (∀ parts : List Str,
       findYearFT parts = extract_year_from_path parts ∧
       YearSpec parts (extract_year_from_path parts)) ∧
    (∀ (s : Str) (k y : Nat), SegHasYearAt s k y → 1900 ≤ y ∧ y ≤ 2099) :=
  ⟨fun parts => ⟨findYearFT_eq_extract_year_from_path parts,
                 extract_year_from_path_spec parts⟩,
   fun _ _ _ h => SegHasYearAt_range h⟩

section AssocLemmas

variable {κ₁ κ₂ ε : Type} [DecidableEq κ₁] [DecidableEq κ₂]

theorem alookup_insInner_self (k : κ₂) (x : ε) (inner : List (κ₂ × List ε)) :
    alookup k (insInner k x inner) = some ((alookup k inner).getD [] ++ [x]) := by
  induction inner with
  | nil => simp [insInner, alookup]
  | cons kv rest ih =>
    by_cases h : k = kv.1
    · simp [insInner, alookup, h]
    · simp only [insInner, if_neg h, alookup]
      exact ih

theorem alookup_insInner_ne {j k : κ₂} (h : j ≠ k) (x : ε)
    (inner : List (κ₂ × List ε)) :
    alookup j (insInner k x inner) = alookup j inner := by
  induction inner with
  | nil => simp [insInner, alookup, h]
  | cons kv rest ih =>
    by_cases hk : k = kv.1
    · subst hk
      simp only [insInner, if_pos rfl, alookup]
      rw [if_neg h, if_neg h]
    · simp only [insInner, if_neg hk, alookup]
      by_cases hj : j = kv.1
      · rw [if_pos hj, if_pos hj]
      · rw [if_neg hj, if_neg hj]
        exact ih

theorem joinInner_insInner (k : κ₂) (x : ε) (inner : List (κ₂ × List ε)) :
    (joinInner (insInner k x inner)).Perm (x :: joinInner inner) := by
  induction inner with
  | nil => simp [insInner, joinInner]
  | cons kv rest ih =>
    by_cases h : k = kv.1
    · rw [insInner, if_pos h]
      have h1 : joinInner ((kv.1, kv.2 ++ [x]) :: rest) =
          (kv.2 ++ [x]) ++ joinInner rest := rfl
      have h2 : joinInner (kv :: rest) = kv.2 ++ joinInner rest := rfl
      rw [h1, h2, List.append_assoc]
      exact List.perm_middle
    · rw [insInner, if_neg h]
      have h1 : joinInner (kv :: insInner k x rest) =
          kv.2 ++ joinInner (insInner k x rest) := rfl
      have h2 : joinInner (kv :: rest) = kv.2 ++ joinInner rest := rfl
      rw [h1, h2]
      exact (ih.append_left kv.2).trans List.perm_middle

theorem mem_keys_insInner {j k : κ₂} {x : ε} {inner : List (κ₂ × List ε)} :
    j ∈ (insInner k x inner).map Prod.fst ↔ j = k ∨ j ∈ inner.map Prod.fst := by
  induction inner with
  | nil => simp [insInner]
  | cons kv rest ih =>
    by_cases h : k = kv.1
    · subst h
      simp [insInner]
    · simp only [insInner, if_neg h, List.map_cons, List.mem_cons, ih]
      tauto

theorem nodup_keys_insInner {k : κ₂} {x : ε} {inner : List (κ₂ × List ε)}
    (h : (inner.map Prod.fst).Nodup) :
    ((insInner k x inner).map Prod.fst).Nodup := by
  induction inner with
  | nil => simp [insInner]
  | cons kv rest ih =>
    rw [List.map_cons, List.nodup_cons] at h
    by_cases hk : k = kv.1
    · simp only [insInner, if_pos hk, List.map_cons, List.nodup_cons]
      exact h
    · simp only [insInner, if_neg hk, List.map_cons, List.nodup_cons]
      refine ⟨?_, ih h.2⟩
      rw [mem_keys_insInner]
      rintro (rfl | hmem)
      · exact hk rfl
      · exact h.1 hmem

theorem insInner_vals_ne_nil {k : κ₂} {x : ε} {inner : List (κ₂ × List ε)}
    (h : ∀ p ∈ inner, p.2 ≠ []) :
    ∀ p ∈ insInner k x inner, p.2 ≠ [] := by
  induction inner with
  | nil =>
    intro p hp
    simp only [insInner, List.mem_singleton] at hp
    subst hp
    simp
  | cons kv rest ih =>
    intro p hp
    by_cases hk : k = kv.1
    · rw [insInner, if_pos hk] at hp
      rcases List.mem_cons.mp hp with rfl | hp
      · simp
      · exact h p (List.mem_cons_of_mem _ hp)
    · rw [insInner, if_neg hk] at hp
      rcases List.mem_cons.mp hp with rfl | hp
      · exact h p (List.mem_cons_self _ _)
      · exact ih (fun q hq => h q (List.mem_cons_of_mem _ hq)) p hp

theorem alookup_ins2_self (k₁ : κ₁) (k₂ : κ₂) (x : ε)
    (st : List (κ₁ × List (κ₂ × List ε))) :
    alookup k₁ (ins2 k₁ k₂ x st) =
      some (insInner k₂ x ((alookup k₁ st).getD [])) := by
  induction st with
  | nil => simp [ins2, alookup]
  | cons kv rest ih =>
    by_cases h : k₁ = kv.1
    · simp [ins2, alookup, h]
    · simp only [ins2, if_neg h, alookup]
      exact ih

theorem alookup_ins2_ne {j k₁ : κ₁} (h : j ≠ k₁) (k₂ : κ₂) (x : ε)
    (st : List (κ₁ × List (κ₂ × List ε))) :
    alookup j (ins2 k₁ k₂ x st) = alookup j st := by
  induction st with
  | nil => simp [ins2, alookup, h]
  | cons kv rest ih =>
    by_cases hk : k₁ = kv.1
    · subst hk
      simp only [ins2, if_pos rfl, alookup]
      rw [if_neg h, if_neg h]
    · simp only [ins2, if_neg hk, alookup]
      by_cases hj : j = kv.1
      · rw [if_pos hj, if_pos hj]
      · rw [if_neg hj, if_neg hj]
        exact ih

theorem join2_ins2 (k₁ : κ₁) (k₂ : κ₂) (x : ε)
    (st : List (κ₁ × List (κ₂ × List ε))) :
    (join2 (ins2 k₁ k₂ x st)).Perm (x :: join2 st) := by
  induction st with
  | nil => simp [ins2, join2, joinInner, insInner]
  | cons kv rest ih =>
    by_cases h : k₁ = kv.1
    · rw [ins2, if_pos h]
      have h1 : join2 ((kv.1, insInner k₂ x kv.2) :: rest) =
          joinInner (insInner k₂ x kv.2) ++ join2 rest := rfl
      have h2 : join2 (kv :: rest) = joinInner kv.2 ++ join2 rest := rfl
      rw [h1, h2]
      exact ((joinInner_insInner k₂ x kv.2).append_right _)
    · rw [ins2, if_neg h]
      have h1 : join2 (kv :: ins2 k₁ k₂ x rest) =
          joinInner kv.2 ++ join2 (ins2 k₁ k₂ x rest) := rfl
      have h2 : join2 (kv :: rest) = joinInner kv.2 ++ join2 rest := rfl
      rw [h1, h2]
      exact (ih.append_left _).trans List.perm_middle

theorem mem_keys_ins2 {j k₁ : κ₁} {k₂ : κ₂} {x : ε}
    {st : List (κ₁ × List (κ₂ × List ε))} :
    j ∈ (ins2 k₁ k₂ x st).map Prod.fst ↔ j = k₁ ∨ j ∈ st.map Prod.fst := by
  induction st with
  | nil => simp [ins2]
  | cons kv rest ih =>
    by_cases h : k₁ = kv.1
    · subst h
      simp [ins2]
    · simp only [ins2, if_neg h, List.map_cons, List.mem_cons, ih]
      tauto

theorem nodup_keys_ins2 {k₁ : κ₁} {k₂ : κ₂} {x : ε}
    {st : List (κ₁ × List (κ₂ × List ε))}
    (h : (st.map Prod.fst).Nodup) :
    ((ins2 k₁ k₂ x st).map Prod.fst).Nodup := by
  induction st with
  | nil => simp [ins2]
  | cons kv rest ih =>
    rw [List.map_cons, List.nodup_cons] at h
    by_cases hk : k₁ = kv.1
    · simp only [ins2, if_pos hk, List.map_cons, List.nodup_cons]
      exact h
    · simp only [ins2, if_neg hk, List.map_cons, List.nodup_cons]
      refine ⟨?_, ih h.2⟩
      rw [mem_keys_ins2]
      rintro (rfl | hmem)
      · exact hk rfl
      · exact h.1 hmem

theorem ins2_inner_nodup {k₁ : κ₁} {k₂ : κ₂} {x : ε}
    {st : List (κ₁ × List (κ₂ × List ε))}
    (h : ∀ p ∈ st, (p.2.map Prod.fst).Nodup) :
    ∀ p ∈ ins2 k₁ k₂ x st, (p.2.map Prod.fst).Nodup := by
  induction st with
  | nil =>
    intro p hp
    simp only [ins2, List.mem_singleton] at hp
    subst hp
    exact nodup_keys_insInner (by simp)
  | cons kv rest ih =>
    intro p hp
    by_cases hk : k₁ = kv.1
    · rw [ins2, if_pos hk] at hp
      rcases List.mem_cons.mp hp with rfl | hp
      · exact nodup_keys_insInner (h kv (List.mem_cons_self _ _))
      · exact h p (List.mem_cons_of_mem _ hp)
    · rw [ins2, if_neg hk] at hp
      rcases List.mem_cons.mp hp with rfl | hp
      · exact h p (List.mem_cons_self _ _)
      · exact ih (fun q hq => h q (List.mem_cons_of_mem _ hq)) p hp

theorem ins2_vals_ne_nil {k₁ : κ₁} {k₂ : κ₂} {x : ε}
    {st : List (κ₁ × List (κ₂ × List ε))}
    (h : ∀ p ∈ st, ∀ q ∈ p.2, q.2 ≠ []) :
    ∀ p ∈ ins2 k₁ k₂ x st, ∀ q ∈ p.2, q.2 ≠ [] := by
  induction st with
  | nil =>
    intro p hp
    simp only [ins2, List.mem_singleton] at hp
    subst hp
    exact insInner_vals_ne_nil (by simp)
  | cons kv rest ih =>
    intro p hp
    by_cases hk : k₁ = kv.1
    · rw [ins2, if_pos hk] at hp
      rcases List.mem_cons.mp hp with rfl | hp
      · exact insInner_vals_ne_nil (h kv (List.mem_cons_self _ _))
      · exact h p (List.mem_cons_of_mem _ hp)
    · rw [ins2, if_neg hk] at hp
      rcases List.mem_cons.mp hp with rfl | hp
      · exact h p (List.mem_cons_self _ _)
      · exact ih (fun q hq => h q (List.mem_cons_of_mem _ hq)) p hp

theorem alookup_eq_none_iff {α β : Type} [DecidableEq α] {k : α}
    {l : List (α × β)} :
    alookup k l = none ↔ k ∉ l.map Prod.fst := by
  induction l with
  | nil => simp [alookup]
  | cons kv rest ih =>
    by_cases h : k = kv.1
    · simp [alookup, h]
    · simp [alookup, h, ih]

theorem alookup_some_mem {α β : Type} [DecidableEq α] {k : α} {v : β}
    {l : List (α × β)} (h : alookup k l = some v) : (k, v) ∈ l := by
  induction l with
  | nil => simp [alookup] at h
  | cons kv rest ih =>
    by_cases hk : k = kv.1
    · rw [alookup, if_pos hk] at h
      injection h with h
      subst hk
      subst h
      exact List.mem_cons_self _ _
    · rw [alookup, if_neg hk] at h
      exact List.mem_cons_of_mem _ (ih h)

theorem lookup2_ins2_self (k₁ : κ₁) (k₂ : κ₂) (x : ε)
    (st : List (κ₁ × List (κ₂ × List ε))) :
    lookup2 (ins2 k₁ k₂ x st) k₁ k₂ = lookup2 st k₁ k₂ ++ [x] := by
  unfold lookup2
  rw [alookup_ins2_self]
  simp [alookup_insInner_self]

theorem lookup2_ins2_ne {j₁ k₁ : κ₁} {j₂ k₂ : κ₂} (x : ε)
    (st : List (κ₁ × List (κ₂ × List ε)))
    (h : j₁ ≠ k₁ ∨ j₂ ≠ k₂) :
    lookup2 (ins2 k₁ k₂ x st) j₁ j₂ = lookup2 st j₁ j₂ := by
  by_cases h1 : j₁ = k₁
  · subst h1
    have h2 : j₂ ≠ k₂ := by tauto
    unfold lookup2
    rw [alookup_ins2_self]
    simp only [Option.getD_some]
    rw [alookup_insInner_ne h2]
  · unfold lookup2
    rw [alookup_ins2_ne h1]

end AssocLemmas

section GenericGroupLemmas

variable {κ₁ κ₂ ε : Type} [DecidableEq κ₁] [DecidableEq κ₂]

theorem foldl_gstep_lookup2 (key1 : ε → Option κ₁) (key2 : ε → κ₂) :
    ∀ (l : List ε) (st : List (κ₁ × List (κ₂ × List ε))) (t : κ₁) (y : κ₂),
    lookup2 (l.foldl (gstep key1 key2) st) t y =
      lookup2 st t y ++
        l.filter (fun x => decide (key1 x = some t) && decide (key2 x = y)) := by
  intro l
  induction l with
  | nil => intro st t y; simp
  | cons x l ih =>
    intro st t y
    rw [List.foldl_cons, ih]
    by_cases hc : key1 x = some t ∧ key2 x = y
    · obtain ⟨h1, h2⟩ := hc
      have hg : gstep key1 key2 st x = ins2 t y x st := by
        simp [gstep, h1, h2]
      have hfil : List.filter
            (fun z => decide (key1 z = some t) && decide (key2 z = y)) (x :: l) =
          x :: List.filter
            (fun z => decide (key1 z = some t) && decide (key2 z = y)) l := by
        simp [List.filter_cons, h1, h2]
      rw [hg, hfil, lookup2_ins2_self]
      simp
    · have hd : (decide (key1 x = some t) && decide (key2 x = y)) = false := by
        rcases not_and_or.mp hc with h | h <;> simp [h]
      have hfil : List.filter
            (fun z => decide (key1 z = some t) && decide (key2 z = y)) (x :: l) =
          List.filter
            (fun z => decide (key1 z = some t) && decide (key2 z = y)) l := by
        simp [List.filter_cons, hd]
      rw [hfil]
      cases hk : key1 x with
      | none =>
        have hg : gstep key1 key2 st x = st := by simp [gstep, hk]
        rw [hg]
      | some k =>
        have hg : gstep key1 key2 st x = ins2 k (key2 x) x st := by
          simp [gstep, hk]
        rw [hg, lookup2_ins2_ne]
        by_cases ht : t = k
        · subst ht
          right
          intro hy
          exact hc ⟨hk, hy.symm⟩
        · exact Or.inl ht

theorem foldl_gstep_join2 (key1 : ε → Option κ₁) (key2 : ε → κ₂) :
    ∀ (l : List ε) (st : List (κ₁ × List (κ₂ × List ε))),
    (join2 (l.foldl (gstep key1 key2) st)).Perm
      (join2 st ++ l.filter (fun x => (key1 x).isSome)) := by
  intro l
  induction l with
  | nil => intro st; simp
  | cons x l ih =>
    intro st
    rw [List.foldl_cons]
    cases hk : key1 x with
    | none =>
      have hg : gstep key1 key2 st x = st := by simp [gstep, hk]
      have hfil : List.filter (fun z => (key1 z).isSome) (x :: l) =
          List.filter (fun z => (key1 z).isSome) l := by
        simp [List.filter_cons, hk]
      rw [hg, hfil]
      exact ih st
    | some k =>
      have hg : gstep key1 key2 st x = ins2 k (key2 x) x st := by
        simp [gstep, hk]
      have hfil : List.filter (fun z => (key1 z).isSome) (x :: l) =
          x :: List.filter (fun z => (key1 z).isSome) l := by
        simp [List.filter_cons, hk]
      rw [hg, hfil]
      refine (ih _).trans ?_
      refine ((join2_ins2 k (key2 x) x st).append_right _).trans ?_
      exact List.perm_middle.symm

theorem foldl_gstep_mem_keys (key1 : ε → Option κ₁) (key2 : ε → κ₂) :
    ∀ (l : List ε) (st : List (κ₁ × List (κ₂ × List ε))) (t : κ₁),
    t ∈ (l.foldl (gstep key1 key2) st).map Prod.fst ↔
      t ∈ st.map Prod.fst ∨ ∃ x ∈ l, key1 x = some t := by
  intro l
  induction l with
  | nil => intro st t; simp
  | cons x l ih =>
    intro st t
    rw [List.foldl_cons, ih]
    cases hk : key1 x with
    | none =>
      have hg : gstep key1 key2 st x = st := by simp [gstep, hk]
      rw [hg]
      simp only [List.mem_cons]
      constructor
      · rintro (h | ⟨z, hz, hzt⟩)
        · exact Or.inl h
        · exact Or.inr ⟨z, Or.inr hz, hzt⟩
      · rintro (h | ⟨z, (rfl | hz), hzt⟩)
        · exact Or.inl h
        · rw [hk] at hzt; exact absurd hzt (by simp)
        · exact Or.inr ⟨z, hz, hzt⟩
    | some k =>
      have hg : gstep key1 key2 st x = ins2 k (key2 x) x st := by
        simp [gstep, hk]
      rw [hg]
      rw [show (t ∈ (ins2 k (key2 x) x st).map Prod.fst ↔
          t = k ∨ t ∈ st.map Prod.fst) from mem_keys_ins2]
      simp only [List.mem_cons]
      constructor
      · rintro ((rfl | h) | ⟨z, hz, hzt⟩)
        · exact Or.inr ⟨x, Or.inl rfl, hk⟩
        · exact Or.inl h
        · exact Or.inr ⟨z, Or.inr hz, hzt⟩
      · rintro (h | ⟨z, (rfl | hz), hzt⟩)
        · exact Or.inl (Or.inr h)
        · rw [hk] at hzt
          injection hzt with hzt
          exact Or.inl (Or.inl hzt.symm)
        · exact Or.inr ⟨z, hz, hzt⟩

theorem gstep_good {key1 : ε → Option κ₁} {key2 : ε → κ₂}
    {st : List (κ₁ × List (κ₂ × List ε))} {x : ε}
    (h : GoodState st) : GoodState (gstep key1 key2 st x) := by
  cases hk : key1 x with
  | none => simpa [gstep, hk] using h
  | some k =>
    have hg : gstep key1 key2 st x = ins2 k (key2 x) x st := by
      simp [gstep, hk]
    rw [hg]
    exact ⟨nodup_keys_ins2 h.1, ins2_inner_nodup h.2.1, ins2_vals_ne_nil h.2.2⟩

theorem ggroup_good (key1 : ε → Option κ₁) (key2 : ε → κ₂) (l : List ε) :
    GoodState (ggroup key1 key2 l) := by
  have : ∀ (l : List ε) (st : List (κ₁ × List (κ₂ × List ε))),
      GoodState st → GoodState (l.foldl (gstep key1 key2) st) := by
    intro l
    induction l with
    | nil => intro st h; exact h
    | cons x l ih => intro st h; exact ih _ (gstep_good h)
  exact this l [] ⟨by simp, by simp, by simp⟩

theorem ggroup_lookup2 (key1 : ε → Option κ₁) (key2 : ε → κ₂) (l : List ε)
    (t : κ₁) (y : κ₂) :
    lookup2 (ggroup key1 key2 l) t y =
      l.filter (fun x => decide (key1 x = some t) && decide (key2 x = y)) := by
  rw [ggroup, foldl_gstep_lookup2]
  simp [lookup2, alookup]

theorem ggroup_join2 (key1 : ε → Option κ₁) (key2 : ε → κ₂) (l : List ε) :
    (join2 (ggroup key1 key2 l)).Perm
      (l.filter (fun x => (key1 x).isSome)) := by
  have := foldl_gstep_join2 key1 key2 l []
  simpa [ggroup, join2] using this

theorem ggroup_mem_keys (key1 : ε → Option κ₁) (key2 : ε → κ₂) (l : List ε)
    (t : κ₁) :
    t ∈ (ggroup key1 key2 l).map Prod.fst ↔ ∃ x ∈ l, key1 x = some t := by
  rw [ggroup, foldl_gstep_mem_keys]
  simp

theorem ggroup_inner_mem {key1 : ε → Option κ₁} {key2 : ε → κ₂} {l : List ε}
    {t : κ₁} {inner : List (κ₂ × List ε)}
    (hst : alookup t (ggroup key1 key2 l) = some inner) (y : κ₂) :
    y ∈ inner.map Prod.fst ↔ ∃ x ∈ l, key1 x = some t ∧ key2 x = y := by
  have hl2 : lookup2 (ggroup key1 key2 l) t y = (alookup y inner).getD [] := by
    rw [lookup2, hst]
    rfl
  have hfil := ggroup_lookup2 key1 key2 l t y
  rw [hl2] at hfil
  constructor
  · intro hy
    cases hv : alookup y inner with
    | none => exact absurd (alookup_eq_none_iff.mp hv) (by simpa using hy)
    | some v =>
      have hvne : v ≠ [] := by
        have hmem := alookup_some_mem hst
        exact (ggroup_good key1 key2 l).2.2 _ hmem _ (alookup_some_mem hv)
      rw [hv] at hfil
      simp only [Option.getD_some] at hfil
      rcases v with _ | ⟨x, v⟩
      · exact absurd rfl hvne
      · have hx : x ∈ l.filter
            (fun x => decide (key1 x = some t) && decide (key2 x = y)) := by
          rw [← hfil]; exact List.mem_cons_self _ _
        have := List.of_mem_filter hx
        simp only [Bool.and_eq_true, decide_eq_true_eq] at this
        exact ⟨x, List.mem_of_mem_filter hx, this.1, this.2⟩
  · rintro ⟨x, hxl, hx1, hx2⟩
    have hx : x ∈ l.filter
        (fun x => decide (key1 x = some t) && decide (key2 x = y)) := by
      rw [List.mem_filter]
      exact ⟨hxl, by simp [hx1, hx2]⟩
    rw [← hfil] at hx
    cases hv : alookup y inner with
    | none => rw [hv] at hx; simp at hx
    | some v =>
      have : (y, v) ∈ inner := alookup_some_mem hv
      exact List.mem_map_of_mem Prod.fst this

end GenericGroupLemmas

theorem group_files_eq_ggroup (files : List FD) :
    group_files files =
      ggroup (fun f => f.parts.head?) (fun f => findYearFT f.parts) files := by
  rw [group_files, ggroup]
  congr 1
  funext st f
  cases h : f.parts with
  | nil => simp [gstep, h]
  | cons t rest => simp [gstep, h]

theorem htmlGrouped_eq_ggroup (entries : List Entry) :
    htmlGrouped entries =
      ggroup (fun e => some (topDir e.path)) yearKey entries := by
  rw [htmlGrouped, ggroup]
  congr 1

theorem mdBucket_eq_filter (files : List FD) (t : Str) (y : Option Nat) :
    mdBucket files t y =
      files.filter
        (fun f => decide (f.parts.head? = some t) && decide (findYearFT f.parts = y)) := by
  rw [mdBucket, group_files_eq_ggroup, ggroup_lookup2]

theorem htmlBucket_eq_filter (entries : List Entry) (t : Str) (y : YKey) :
    htmlBucket entries t y =
      entries.filter
        (fun e => decide (topDir e.path = t) && decide (yearKey e = y)) := by
  rw [htmlBucket, htmlGrouped_eq_ggroup, ggroup_lookup2]
  congr 1
  funext e
  by_cases h : topDir e.path = t <;> simp [h]

theorem join2_group_files (files : List FD) (hne : ∀ f ∈ files, f.parts ≠ []) :
    (join2 (group_files files)).Perm files := by
  rw [group_files_eq_ggroup]
  refine (ggroup_join2 _ _ files).trans ?_
  rw [List.filter_eq_self.mpr]
  intro f hf
  have := hne f hf
  cases h : f.parts with
  | nil => exact absurd h this
  | cons t rest => simp [h]

theorem join2_htmlGrouped (entries : List Entry) :
    (join2 (htmlGrouped entries)).Perm entries := by
  rw [htmlGrouped_eq_ggroup]
  refine (ggroup_join2 _ _ entries).trans ?_
  rw [List.filter_eq_self.mpr]
  intro e _
  simp

/-- C2: both groupers are partitions.  Each (top directory, year) bucket
holds exactly the input descriptors carrying that key pair — so every
descriptor lands in exactly one bucket — and the concatenation of all
buckets is a permutation of the input sequence (each descriptor exactly
once). -/
theorem c2_grouping_is_partition (files : List FD) (entries : List Entry)
    (hne : ∀ f ∈ files, f.parts ≠ []) :
    (∀ t y, mdBucket files t y =
      files.filter
        (fun f => decide (f.parts.head? = some t) && decide (findYearFT f.parts = y))) ∧
    (join2 (group_files files)).Perm files ∧
    (∀ t y, htmlBucket entries t y =
      entries.filter
        (fun e => decide (topDir e.path = t) && decide (yearKey e = y))) ∧
    (join2 (htmlGrouped entries)).Perm entries :=
  ⟨fun t y => mdBucket_eq_filter files t y,
   join2_group_files files hne,
   fun t y => htmlBucket_eq_filter entries t y,
   join2_htmlGrouped entries⟩

/-- Witness for C2 at a concrete input: the three-file tree
`A/2010/x.pdf`, `A/2010/y.pdf`, `B/z.pdf` and its HTML-script analogue. -/
theorem c2_grouping_is_partition_witness :
    (join2 (group_files
      [⟨[lit "A", lit "2010", lit "x.pdf"]⟩,
       ⟨[lit "A", lit "2010", lit "y.pdf"]⟩,
       ⟨[lit "B", lit "z.pdf"]⟩])).Perm
      [⟨[lit "A", lit "2010", lit "x.pdf"]⟩,
       ⟨[lit "A", lit "2010", lit "y.pdf"]⟩,
       ⟨[lit "B", lit "z.pdf"]⟩] :=
  (c2_grouping_is_partition
    [⟨[lit "A", lit "2010", lit "x.pdf"]⟩,
     ⟨[lit "A", lit "2010", lit "y.pdf"]⟩,
     ⟨[lit "B", lit "z.pdf"]⟩]
    [⟨lit "A/x.pdf", lit "x.pdf", none⟩]
    (by intro f hf; fin_cases hf <;> simp)).2.1

theorem digitChar_toNat {d : Nat} (h : d < 10) :
    (Nat.digitChar d).toNat - 48 = d := by
  interval_cases d <;> rfl

theorem digitChar_isDigit {d : Nat} (h : d < 10) :
    (Nat.digitChar d).isDigit = true := by
  interval_cases d <;> rfl

theorem foldl_natCharsAux (n : Nat) : ∀ (acc : Str) (a : Nat),
    (natCharsAux n acc).foldl (fun a c => a * 10 + (c.toNat - 48)) a =
      acc.foldl (fun a c => a * 10 + (c.toNat - 48)) (pushDigits a n) := by
  induction n using Nat.strong_induction_on with
  | _ n ih =>
    intro acc a
    by_cases h : n = 0
    · rw [natCharsAux, pushDigits]
      simp [h]
    · rw [natCharsAux, pushDigits, dif_neg h, if_neg h]
      rw [ih (n / 10) (Nat.div_lt_self (Nat.pos_of_ne_zero h) (by norm_num))]
      rw [List.foldl_cons]
      congr 1
      rw [digitChar_toNat (Nat.mod_lt n (by norm_num))]

theorem pushDigits_zero (n : Nat) : pushDigits 0 n = n := by
  induction n using Nat.strong_induction_on with
  | _ n ih =>
    by_cases h : n = 0
    · rw [pushDigits]; simp [h]
    · rw [pushDigits, if_neg h,
        ih (n / 10) (Nat.div_lt_self (Nat.pos_of_ne_zero h) (by norm_num))]
      omega

theorem natDigits_natChars (n : Nat) : natDigits (natChars n) = n := by
  by_cases h : n = 0
  · subst h; rfl
  · rw [natChars, if_neg h, natDigits, foldl_natCharsAux]
    simpa using pushDigits_zero n

theorem natChars_injective {a b : Nat} (h : natChars a = natChars b) : a = b := by
  have := congrArg natDigits h
  rwa [natDigits_natChars, natDigits_natChars] at this

theorem natCharsAux_head (n : Nat) (hn : n ≠ 0) : ∀ (acc : Str),
    ∃ c rest, natCharsAux n acc = c :: rest ∧ c.isDigit = true := by
  induction n using Nat.strong_induction_on with
  | _ n ih =>
    intro acc
    rw [natCharsAux, dif_neg hn]
    by_cases h10 : n / 10 = 0
    · rw [natCharsAux, dif_pos h10]
      exact ⟨_, _, rfl, digitChar_isDigit (Nat.mod_lt n (by omega))⟩
    · exact ih (n / 10) (Nat.div_lt_self (Nat.pos_of_ne_zero hn) (by norm_num)) h10 _

theorem natChars_head (n : Nat) :
    ∃ c rest, natChars n = c :: rest ∧ c.isDigit = true := by
  by_cases h : n = 0
  · subst h; exact ⟨'0', [], rfl, rfl⟩
  · rw [natChars, if_neg h]
    exact natCharsAux_head n h []

theorem natChars_ne_noYear (n : Nat) : natChars n ≠ lit "No Year Folder" := by
  intro h
  obtain ⟨c, rest, hc, hd⟩ := natChars_head n
  rw [hc] at h
  have : c = 'N' := by
    have := congrArg (fun l => l.head?) h
    simpa [lit] using this
  subst this
  exact absurd hd (by decide)

theorem keyLe_trans {α κ : Type} [LinearOrder κ] (key : α → κ) :
    ∀ a b c, keyLe key a b = true → keyLe key b c = true → keyLe key a c = true := by
  intro a b c hab hbc
  simp only [keyLe, decide_eq_true_eq] at *
  exact le_trans hab hbc

theorem keyLe_total {α κ : Type} [LinearOrder κ] (key : α → κ) :
    ∀ a b, (keyLe key a b || keyLe key b a) = true := by
  intro a b
  simp only [keyLe, Bool.or_eq_true, decide_eq_true_eq]
  exact le_total _ _

/-! Ordering of the rendered sections (C3). -/

theorem mergeSort_keyLe_pairwise {α κ : Type} [LinearOrder κ] (key : α → κ)
    (l : List α) :
    (l.mergeSort (keyLe key)).Pairwise (fun a b => key a ≤ key b) := by
  have h := List.sorted_mergeSort
    (keyLe_trans key) (keyLe_total key) l
  exact h.imp (fun hab => by simpa [keyLe] using hab)

theorem pairwise_lt_of_le_nodup {κ : Type} [LinearOrder κ] {l : List κ}
    (hle : l.Pairwise (fun a b => a ≤ b)) (hnd : l.Nodup) :
    l.Pairwise (fun a b => a < b) :=
  List.Sorted.lt_of_le hle hnd

theorem goodstate_keys_nodup_getD {κ₁ κ₂ ε : Type} [DecidableEq κ₁] [DecidableEq κ₂]
    {st : List (κ₁ × List (κ₂ × List ε))} (h : GoodState st) (d : κ₁) :
    (((alookup d st).getD []).map Prod.fst).Nodup := by
  cases hd : alookup d st with
  | none => simp
  | some inner => exact h.2.1 _ (alookup_some_mem hd)

theorem mdDirs_sorted (files : List FD) :
    (mdDirs (group_files files)).Pairwise (fun a b : Str => a < b) := by
  have hgood : GoodState (group_files files) := by
    rw [group_files_eq_ggroup]; exact ggroup_good _ _ _
  have hle := mergeSort_keyLe_pairwise (fun s : Str => s)
    ((group_files files).map Prod.fst)
  have hnd : (mdDirs (group_files files)).Nodup :=
    (List.mergeSort_perm _ _).symm.nodup hgood.1
  exact pairwise_lt_of_le_nodup hle hnd

theorem mdYears_sorted (files : List FD) (d : Str) :
    (mdYears ((alookup d (group_files files)).getD [])).Pairwise yearOrder := by
  have hgood : GoodState (group_files files) := by
    rw [group_files_eq_ggroup]; exact ggroup_good _ _ _
  have hnd := goodstate_keys_nodup_getD hgood d
  set inner := (alookup d (group_files files)).getD [] with hinner
  have hndnum : (((inner.map Prod.fst).filterMap id)).Nodup := by
    refine hnd.filterMap ?_
    intro a a' b hb hb'
    cases a <;> cases a' <;> simp_all
  have hle := mergeSort_keyLe_pairwise (fun n : Nat => n)
    ((inner.map Prod.fst).filterMap id)
  have hndsort : (((inner.map Prod.fst).filterMap id).mergeSort
      (keyLe (fun n : Nat => n))).Nodup :=
    (List.mergeSort_perm _ _).symm.nodup hndnum
  have hstrict := pairwise_lt_of_le_nodup hle hndsort
  rw [mdYears]
  rw [List.pairwise_append]
  refine ⟨?_, ?_, ?_⟩
  · rw [List.pairwise_map]
    exact hstrict.imp (fun hab => hab)
  · split <;> simp
  · intro a ha b hb
    obtain ⟨n, -, rfl⟩ := List.mem_map.mp ha
    have : b = none := by
      rcases List.mem_ite_nil_right.mp hb with ⟨-, hb⟩
      simpa using hb
    subst this
    trivial

theorem htmlDirs_sorted (entries : List Entry) :
    (htmlDirs (htmlGrouped entries)).Pairwise (fun a b : Str => a < b) := by
  have hgood : GoodState (htmlGrouped entries) := by
    rw [htmlGrouped_eq_ggroup]; exact ggroup_good _ _ _
  have hle := mergeSort_keyLe_pairwise (fun s : Str => s)
    ((htmlGrouped entries).map Prod.fst)
  have hnd : (htmlDirs (htmlGrouped entries)).Nodup :=
    (List.mergeSort_perm _ _).symm.nodup hgood.1
  exact pairwise_lt_of_le_nodup hle hnd

theorem displayOf_injective {a b : YKey} (h : displayOf a = displayOf b) :
    a = b := by
  cases a with
  | yr n =>
    cases b with
    | yr m => rw [displayOf, displayOf] at h; rw [natChars_injective h]
    | noYear => exact absurd h (natChars_ne_noYear n)
  | noYear =>
    cases b with
    | yr m => exact absurd h.symm (natChars_ne_noYear m)
    | noYear => rfl

theorem updA_keys_mem {α β : Type} [DecidableEq α] {j k : α} {v : β}
    {m : List (α × β)} :
    j ∈ (updA k v m).map Prod.fst ↔ j = k ∨ j ∈ m.map Prod.fst := by
  induction m with
  | nil => simp [updA]
  | cons kv rest ih =>
    by_cases h : kv.1 = k
    · subst h
      simp [updA]
    · simp only [updA, if_neg h, List.map_cons, List.mem_cons, ih]
      tauto

theorem updA_keys_nodup {α β : Type} [DecidableEq α] {k : α} {v : β}
    {m : List (α × β)} (h : (m.map Prod.fst).Nodup) :
    ((updA k v m).map Prod.fst).Nodup := by
  induction m with
  | nil => simp [updA]
  | cons kv rest ih =>
    rw [List.map_cons, List.nodup_cons] at h
    by_cases hk : kv.1 = k
    · simp only [updA, if_pos hk, List.map_cons, List.nodup_cons]
      exact hk ▸ h
    · simp only [updA, if_neg hk, List.map_cons, List.nodup_cons]
      refine ⟨?_, ih h.2⟩
      rw [updA_keys_mem]
      rintro (rfl | hmem)
      · exact hk rfl
      · exact h.1 hmem

theorem year_map_keys_nodup (inner : List (YKey × List Entry)) :
    ((year_map inner).map Prod.fst).Nodup := by
  have : ∀ (l : List (YKey × List Entry)) (m : List (Str × List Entry)),
      (m.map Prod.fst).Nodup →
      ((l.foldl (fun m p => updA (displayOf p.1) (htmlSortFiles p.2) m) m).map
        Prod.fst).Nodup := by
    intro l
    induction l with
    | nil => intro m hm; exact hm
    | cons p l ih => intro m hm; exact ih _ (updA_keys_nodup hm)
  exact this inner [] (by simp)

theorem year_map_keys_mem {inner : List (YKey × List Entry)} {s : Str} :
    s ∈ (year_map inner).map Prod.fst ↔ ∃ k ∈ inner.map Prod.fst, displayOf k = s := by
  have : ∀ (l : List (YKey × List Entry)) (m : List (Str × List Entry)),
      (s ∈ (l.foldl (fun m p => updA (displayOf p.1) (htmlSortFiles p.2) m) m).map
          Prod.fst ↔
        s ∈ m.map Prod.fst ∨ ∃ k ∈ l.map Prod.fst, displayOf k = s) := by
    intro l
    induction l with
    | nil => intro m; simp
    | cons p l ih =>
      intro m
      rw [List.foldl_cons, ih]
      rw [show (s ∈ (updA (displayOf p.1) (htmlSortFiles p.2) m).map Prod.fst ↔
          s = displayOf p.1 ∨ s ∈ m.map Prod.fst) from updA_keys_mem]
      simp only [List.map_cons, List.mem_cons]
      constructor
      · rintro ((rfl | hm) | ⟨k, hk, hks⟩)
        · exact Or.inr ⟨p.1, Or.inl rfl, rfl⟩
        · exact Or.inl hm
        · exact Or.inr ⟨k, Or.inr hk, hks⟩
      · rintro (hm | ⟨k, (rfl | hk), hks⟩)
        · exact Or.inl (Or.inr hm)
        · exact Or.inl (Or.inl hks.symm)
        · exact Or.inr ⟨k, hk, hks⟩
  rw [year_map, this inner []]
  simp

theorem numericSorted (keys : List Str) (hnd : keys.Nodup)
    (hform : ∀ s ∈ keys, s ≠ lit "No Year Folder" → ∃ n, s = natChars n) :
    ∃ ns : List Nat, ns.Pairwise (fun a b => a < b) ∧
      (keys.filter (fun s => !decide (s = lit "No Year Folder"))).mergeSort
          (keyLe natDigits)
        = ns.map natChars := by
  have hmsnd : ((keys.filter
      (fun s => !decide (s = lit "No Year Folder"))).mergeSort
        (keyLe natDigits)).Nodup :=
    (List.mergeSort_perm _ _).symm.nodup (hnd.filter _)
  have hmsle := mergeSort_keyLe_pairwise natDigits
    (keys.filter (fun s => !decide (s = lit "No Year Folder")))
  have hmem : ∀ s ∈ (keys.filter
      (fun s => !decide (s = lit "No Year Folder"))).mergeSort
        (keyLe natDigits), ∃ n, s = natChars n := by
    intro s hs
    have hs2 : s ∈ keys.filter (fun s => !decide (s = lit "No Year Folder")) :=
      (List.mergeSort_perm _ _).mem_iff.mp hs
    have hs3 : s ∈ keys := List.mem_of_mem_filter hs2
    have hs4 : ¬ s = lit "No Year Folder" := by
      have := List.of_mem_filter hs2
      simpa using this
    exact hform s hs3 hs4
  refine ⟨((keys.filter
      (fun s => !decide (s = lit "No Year Folder"))).mergeSort
        (keyLe natDigits)).map natDigits, ?_, ?_⟩
  · rw [List.pairwise_map]
    have hne : ((keys.filter
        (fun s => !decide (s = lit "No Year Folder"))).mergeSort
          (keyLe natDigits)).Pairwise (fun a b => a ≠ b) := hmsnd
    refine List.Pairwise.imp_of_mem ?_ (hmsle.and hne)
    intro a b ha hb hab
    obtain ⟨n, rfl⟩ := hmem a ha
    obtain ⟨m, rfl⟩ := hmem b hb
    rcases lt_or_eq_of_le hab.1 with h | h
    · exact h
    · exfalso
      rw [natDigits_natChars, natDigits_natChars] at h
      exact hab.2 (by rw [h])
  · rw [List.map_map]
    refine Eq.symm ?_
    have hcg : ∀ s ∈ (keys.filter
        (fun s => !decide (s = lit "No Year Folder"))).mergeSort
          (keyLe natDigits), (natChars ∘ natDigits) s = id s := by
      intro s hs
      obtain ⟨n, rfl⟩ := hmem s hs
      simp [natDigits_natChars]
    rw [List.map_congr_left hcg, List.map_id]

theorem htmlSortedYears_shape (inner : List (YKey × List Entry)) :
    ∃ ns : List Nat, ns.Pairwise (fun a b => a < b) ∧
      (htmlSortedYears (year_map inner) = ns.map natChars ∨
       htmlSortedYears (year_map inner) =
         ns.map natChars ++ [lit "No Year Folder"]) := by
  obtain ⟨ns, hp, heq⟩ := numericSorted ((year_map inner).map Prod.fst)
    (year_map_keys_nodup inner)
    (by
      intro s hs hne
      obtain ⟨k, -, rfl⟩ := year_map_keys_mem.mp hs
      cases k with
      | yr n => exact ⟨n, rfl⟩
      | noYear => exact absurd rfl hne)
  refine ⟨ns, hp, ?_⟩
  rw [htmlSortedYears, heq]
  cases hc : ((year_map inner).map Prod.fst).contains (lit "No Year Folder") with
  | false =>
    left
    simp
  | true =>
    right
    simp

/-- C3: in both renderers, top-level directory sections are emitted in
strictly ascending lexical order; within a directory the year groups are
emitted in strictly ascending numeric order with the "no year" group
last. -/
theorem c3_sections_sorted (files : List FD) (entries : List Entry) :
    (mdDirs (group_files files)).Pairwise (fun a b : Str => a < b) ∧
    (∀ d, (mdYears ((alookup d (group_files files)).getD [])).Pairwise yearOrder) ∧
    (htmlDirs (htmlGrouped entries)).Pairwise (fun a b : Str => a < b) ∧
    (∀ d, ∃ ns : List Nat, ns.Pairwise (fun a b => a < b) ∧
      (htmlSortedYears (year_map ((alookup d (htmlGrouped entries)).getD []))
          = ns.map natChars ∨
       htmlSortedYears (year_map ((alookup d (htmlGrouped entries)).getD []))
          = ns.map natChars ++ [lit "No Year Folder"])) :=
  ⟨mdDirs_sorted files, mdYears_sorted files, htmlDirs_sorted entries,
   fun _ => htmlSortedYears_shape _⟩

/-- C7: the per-bucket sorting step each renderer applies before emitting
rows keeps exactly the bucket's files (a permutation) and orders them by
relative path — case-sensitively in the Markdown script,
case-insensitively (on `path.lower()`) in the HTML script. -/
theorem c7_buckets_sorted_by_path (files : List FD) (entries : List Entry) :
    (mdSortBucket files).Perm files ∧
    (mdSortBucket files).Pairwise
      (fun a b => joinParts a.parts ≤ joinParts b.parts) ∧
    (htmlSortFiles entries).Perm entries ∧
    (htmlSortFiles entries).Pairwise
      (fun a b => lowerStr a.path ≤ lowerStr b.path) :=
  ⟨List.mergeSort_perm _ _, mergeSort_keyLe_pairwise _ _,
   List.mergeSort_perm _ _, mergeSort_keyLe_pairwise _ _⟩

/-! The `str.replace` facts behind C6 and C10. -/

theorem pyReplace_single (p : Char) (new : Str) (s : Str) :
    pyReplace [p] new s = s.flatMap (fun c => if c = p then new else [c]) := by
  induction s with
  | nil => simp [pyReplace]
  | cons c cs ih =>
    rw [pyReplace]
    by_cases h : c = p
    · subst h
      have hcond : (!([c] : Str).isEmpty && strStarts [c] (c :: cs)) = true := by
        simp only [strStarts, List.isEmpty_cons, Bool.not_false, Bool.true_and,
          beq_self_eq_true]
      rw [if_pos hcond]
      simp only [List.length_cons, List.length_nil, Nat.zero_add, Nat.sub_self,
        List.drop_zero]
      rw [ih]
      simp
    · have hss : strStarts [p] (c :: cs) = false := by
        simp only [strStarts]
        have hb : (p == c) = false := by
          rw [beq_eq_false_iff_ne]
          exact fun he => h he.symm
        rw [hb, Bool.false_and]
      have hcond : ¬ ((!([p] : Str).isEmpty && strStarts [p] (c :: cs)) = true) := by
        simp [hss]
      rw [if_neg hcond]
      rw [ih]
      simp [h]

/-- The `name.replace("|", "\\|")` — the Markdown cell escape. -/
theorem mdEscapeName_eq (s : Str) :
    mdEscapeName s = s.flatMap (fun c => if c = '|' then lit "\\|" else [c]) :=
  pyReplace_single '|' (lit "\\|") s

/-- The `name.replace("|", "Vertical Bar")` — the HTML display-name rewrite. -/
theorem htmlSafeName_eq (s : Str) :
    htmlSafeName s =
      s.flatMap (fun c => if c = '|' then lit "Vertical Bar" else [c]) :=
  pyReplace_single '|' (lit "Vertical Bar") s

theorem mdEscapeName_head_ne_pipe (s : Str) :
    (mdEscapeName s).head? ≠ some '|' := by
  rw [mdEscapeName_eq]
  cases s with
  | nil => simp
  | cons c cs =>
    by_cases h : c = '|'
    · subst h
      simp [lit]
    · simp [h]

theorem mdUnescape_mdEscapeName (s : Str) :
    mdUnescape (mdEscapeName s) = s := by
  induction s with
  | nil => simp [mdUnescape, mdEscapeName, pyReplace]
  | cons c cs ih =>
    by_cases h : c = '|'
    · subst h
      have he : mdEscapeName ('|' :: cs) = '\\' :: '|' :: mdEscapeName cs := by
        rw [mdEscapeName_eq, mdEscapeName_eq,
          show (lit "\\|") = '\\' :: '|' :: [] from rfl]
        simp
      rw [he, mdUnescape, pyReplace]
      have hcond : (!(lit "\\|").isEmpty &&
          strStarts (lit "\\|") ('\\' :: '|' :: mdEscapeName cs)) = true := by
        rw [show (lit "\\|") = '\\' :: '|' :: [] from rfl]
        simp [strStarts]
      rw [if_pos hcond]
      have hdrop : (('|' :: mdEscapeName cs).drop ((lit "\\|").length - 1)) =
          mdEscapeName cs := by
        rw [show (lit "\\|") = '\\' :: '|' :: [] from rfl]
        simp
      rw [hdrop]
      exact congrArg (fun t => '|' :: t) ih
    · have he : mdEscapeName (c :: cs) = c :: mdEscapeName cs := by
        rw [mdEscapeName_eq, mdEscapeName_eq]
        simp [h]
      rw [he, mdUnescape, pyReplace]
      have hcond : ¬ ((!(lit "\\|").isEmpty &&
          strStarts (lit "\\|") (c :: mdEscapeName cs)) = true) := by
        intro hc
        simp only [Bool.and_eq_true] at hc
        have hs := hc.2
        rw [show (lit "\\|") = '\\' :: '|' :: [] from rfl] at hs
        simp only [strStarts, Bool.and_eq_true, beq_iff_eq] at hs
        obtain ⟨hc1, hs⟩ := hs
        cases hm : mdEscapeName cs with
        | nil => rw [hm] at hs; simp [strStarts] at hs
        | cons d ds =>
          rw [hm] at hs
          simp only [strStarts, Bool.and_eq_true, beq_iff_eq] at hs
          have hhd := mdEscapeName_head_ne_pipe cs
          rw [hm] at hhd
          simp only [List.head?_cons, ne_eq, Option.some.injEq] at hhd
          exact hhd hs.1.symm
      rw [if_neg hcond]
      exact congrArg (fun t => c :: t) ih

/-- C6: in the Markdown renderer, every `|` in a filename is escaped to
`\|` in the emitted cell, the escape is reversed exactly by the
substitution `\| → |`, and the escape is injective. -/
theorem c6_md_escape_reversible (name a b : Str)
    (h : mdEscapeName a = mdEscapeName b) :
    mdEscapeName name =
      name.flatMap (fun c => if c = '|' then lit "\\|" else [c]) ∧
    mdUnescape (mdEscapeName name) = name ∧
    a = b := by
  refine ⟨mdEscapeName_eq name, mdUnescape_mdEscapeName name, ?_⟩
  have ha := mdUnescape_mdEscapeName a
  have hb := mdUnescape_mdEscapeName b
  rw [← ha, ← hb, h]

/-- Witness for C6 at the filename `report|v2.pdf`. -/
theorem c6_md_escape_reversible_witness :
    mdEscapeName (lit "report|v2.pdf") =
      (lit "report|v2.pdf").flatMap
        (fun c => if c = '|' then lit "\\|" else [c]) ∧
    mdUnescape (mdEscapeName (lit "report|v2.pdf")) = lit "report|v2.pdf" ∧
    lit "x.pdf" = lit "x.pdf" :=
  c6_md_escape_reversible (lit "report|v2.pdf") (lit "x.pdf") (lit "x.pdf") rfl

/-- C10: the HTML display name replaces each `|` by the literal text
`Vertical Bar`; the rewrite is not reversible (a file named `|` and one
named `Vertical Bar` render identically); the path cell of the row keeps
the raw path. -/
theorem c10_html_vertical_bar (e : Entry) :
    (∀ s, htmlSafeName s =
      s.flatMap (fun c => if c = '|' then lit "Vertical Bar" else [c])) ∧
    htmlSafeName (lit "|") = lit "Vertical Bar" ∧
    htmlSafeName (lit "Vertical Bar") = lit "Vertical Bar" ∧
    htmlSafeName (lit "|") = htmlSafeName (lit "Vertical Bar") ∧
    htmlFileRow e =
      lit "          <tr><td><a href=\"" ++ hfLink e.path ++
        lit "\" target=\"_blank\">" ++ htmlSafeName e.name ++
        lit "</a></td><td><code>" ++ e.path ++ lit "</code></td></tr>\n" := by
  have h1 : htmlSafeName (lit "|") = lit "Vertical Bar" := by
    rw [htmlSafeName_eq]
    decide
  have h2 : htmlSafeName (lit "Vertical Bar") = lit "Vertical Bar" := by
    rw [htmlSafeName_eq]
    decide
  exact ⟨htmlSafeName_eq, h1, h2, h1.trans h2.symm, rfl⟩

/-- C5: the HTML generator aborts (non-zero exit, no output written) when
the template file is absent — both from `generate_html` directly and
through `main` — and writes output only as the template with both
placeholders substituted. -/
theorem c5_template_missing_aborts (entries : List Entry) (total : Nat)
    (tpl : Str) (hfFlag fallback : Bool) (remote : Except Str (List Str))
    (locals : List Entry) :
    generate_html false tpl entries total = Except.error () ∧
    main_run hfFlag remote fallback locals false tpl = Except.error () ∧
    generate_html true tpl entries total =
      Except.ok (template_substitute tpl total (generate_html_content entries)) := by
  refine ⟨rfl, ?_, rfl⟩
  rw [main_run]
  split
  · rfl
  · split
    · rfl
    · rfl

/-- C4: when the index generator runs with the remote flag and the remote
listing raised or produced no PDF files, it aborts with a failure exit
and no output unless the local-fallback flag is set, in which case it
behaves exactly like the local-scan run. -/
theorem c4_remote_failure_fallback (remote : Except Str (List Str))
    (fallback : Bool) (locals : List Entry) (te : Bool) (tpl : Str)
    (h : (∃ msg, remote = Except.error msg) ∨ get_pdf_files_from_hf remote = []) :
    main_run true remote fallback locals te tpl =
      (if fallback then main_run false remote fallback locals te tpl
       else Except.error ()) := by
  have hempty : get_pdf_files_from_hf remote = [] := by
    rcases h with ⟨msg, rfl⟩ | h
    · rfl
    · exact h
  cases fallback with
  | false =>
    rw [if_neg (by simp)]
    simp [main_run, hempty]
  | true =>
    rw [if_pos rfl]
    simp [main_run, hempty]

/-- Witness for C4: a raised remote call with no fallback aborts. -/
theorem c4_remote_failure_fallback_witness :
    main_run true (Except.error (lit "connection refused")) false [] true [] =
      Except.error () := by
  have := c4_remote_failure_fallback (Except.error (lit "connection refused"))
    false [] true [] (Or.inl ⟨lit "connection refused", rfl⟩)
  simpa using this

/-! The reported total and the number of rendered rows (C8). -/

theorem alookup_of_nodup_mem {α β : Type} [DecidableEq α] {l : List (α × β)}
    {k : α} {v : β} (hnd : (l.map Prod.fst).Nodup) (hm : (k, v) ∈ l) :
    alookup k l = some v := by
  induction l with
  | nil => simp at hm
  | cons kv rest ih =>
    rw [List.map_cons, List.nodup_cons] at hnd
    rcases List.mem_cons.mp hm with heq | hm'
    · rw [← heq, alookup, if_pos rfl]
    · have hk : k ≠ kv.1 := by
        rintro rfl
        exact hnd.1 (List.mem_map.mpr ⟨(kv.1, v), hm', rfl⟩)
      rw [alookup, if_neg hk]
      exact ih hnd.2 hm'

theorem filterMap_id_map_some (keys : List (Option Nat)) :
    (keys.filterMap id).map some = keys.filter (fun o => o.isSome) := by
  induction keys with
  | nil => rfl
  | cons o rest ih =>
    cases o with
    | none => simpa using ih
    | some a => simpa using ih

theorem contains_none_iff {keys : List (Option Nat)} :
    keys.contains none = true ↔ none ∈ keys :=
  List.elem_iff

theorem filter_not_isSome_of_nodup {keys : List (Option Nat)}
    (hnd : keys.Nodup) :
    keys.filter (fun o => !o.isSome) =
      if keys.contains none then [none] else [] := by
  induction keys with
  | nil => rfl
  | cons o rest ih =>
    rw [List.nodup_cons] at hnd
    cases o with
    | some a =>
      have hc : ((some a :: rest).contains none) = rest.contains none := by
        show List.elem none (some a :: rest) = List.elem none rest
        rw [List.elem_cons]
        simp
      rw [hc, List.filter_cons]
      simpa using ih hnd.2
    | none =>
      have hc : ((none :: rest).contains (none : Option Nat)) = true := by
        rw [contains_none_iff]
        exact List.mem_cons_self _ _
      rw [hc, List.filter_cons]
      simp only [Option.isSome_none, Bool.not_false, if_true]
      have hrest : rest.filter (fun o => !o.isSome) = [] := by
        rw [List.filter_eq_nil_iff]
        intro o ho
        cases o with
        | none => exact absurd ho hnd.1
        | some b => simp
      rw [hrest]


theorem mdYears_perm_keys {inner : List (Option Nat × List FD)}
    (hnd : (inner.map Prod.fst).Nodup) :
    (mdYears inner).Perm (inner.map Prod.fst) := by
  rw [mdYears]
  have h1 : ((((inner.map Prod.fst).filterMap id).mergeSort
      (keyLe (fun n : Nat => n))).map some).Perm
        ((inner.map Prod.fst).filter (fun o => o.isSome)) := by
    rw [← filterMap_id_map_some]
    exact (List.mergeSort_perm _ _).map some
  have h2 : (if (inner.map Prod.fst).contains none then [(none : Option Nat)] else [])
      = (inner.map Prod.fst).filter (fun o => !o.isSome) :=
    (filter_not_isSome_of_nodup hnd).symm
  rw [h2]
  exact (h1.append (List.Perm.refl _)).trans
    (List.filter_append_perm (fun o => o.isSome) (inner.map Prod.fst))

theorem mdYearCount_eq {inner : List (Option Nat × List FD)} (y : Option Nat) :
    mdYearCount inner y = ((alookup y inner).getD []).length := by
  rw [mdYearCount, mdSortBucket]
  exact (List.mergeSort_perm _ _).length_eq

theorem joinInner_length {κ₂ ε : Type} (inner : List (κ₂ × List ε)) :
    (joinInner inner).length = (inner.map (fun p => p.2.length)).sum := by
  rw [joinInner, List.length_flatMap]
  congr 1

theorem join2_length {κ₁ κ₂ ε : Type} (st : List (κ₁ × List (κ₂ × List ε))) :
    (join2 st).length = (st.map (fun p => (joinInner p.2).length)).sum := by
  rw [join2, List.length_flatMap]
  congr 1

theorem mdYears_counts_sum {inner : List (Option Nat × List FD)}
    (hnd : (inner.map Prod.fst).Nodup) :
    ((mdYears inner).map (fun y => mdYearCount inner y)).sum =
      (joinInner inner).length := by
  have hperm := (mdYears_perm_keys hnd).map (fun y => mdYearCount inner y)
  rw [hperm.sum_eq]
  rw [List.map_map]
  have hcg : ∀ p ∈ inner,
      ((fun y => mdYearCount inner y) ∘ Prod.fst) p = p.2.length := by
    intro p hp
    have := alookup_of_nodup_mem hnd ((Prod.mk.eta (p := p)) ▸ hp)
    simp only [Function.comp_apply]
    rw [mdYearCount_eq, this]
    rfl
  rw [List.map_congr_left hcg, joinInner_length]

theorem mdTotal_eq_length (files : List FD) (hne : ∀ f ∈ files, f.parts ≠ []) :
    mdTotal files = files.length := by
  have hgood : GoodState (group_files files) := by
    rw [group_files_eq_ggroup]; exact ggroup_good _ _ _
  rw [mdTotal]
  have hperm := (List.mergeSort_perm ((group_files files).map Prod.fst)
    (keyLe (fun s : Str => s))).map
      (fun d => ((mdYears ((alookup d (group_files files)).getD [])).map
        (fun y => mdYearCount ((alookup d (group_files files)).getD []) y)).sum)
  rw [mdDirs, hperm.sum_eq, List.map_map]
  have hcg : ∀ p ∈ group_files files,
      ((fun d => ((mdYears ((alookup d (group_files files)).getD [])).map
        (fun y => mdYearCount ((alookup d (group_files files)).getD []) y)).sum)
        ∘ Prod.fst) p = (joinInner p.2).length := by
    intro p hp
    have hl : alookup p.1 (group_files files) = some p.2 :=
      alookup_of_nodup_mem hgood.1 ((Prod.mk.eta (p := p)) ▸ hp)
    simp only [Function.comp_apply, hl, Option.getD_some]
    exact mdYears_counts_sum (hgood.2.1 p hp)
  rw [List.map_congr_left hcg, ← join2_length]
  exact (join2_group_files files hne).length_eq

theorem mdYearRows_length {inner : List (Option Nat × List FD)}
    (hnd : (inner.map Prod.fst).Nodup)
    (hvals : ∀ q ∈ inner, q.2 ≠ []) (y : Option Nat)
    (hy : y ∈ mdYears inner) :
    (mdYearRows inner y).length = mdYearCount inner y := by
  have hykey : y ∈ inner.map Prod.fst := (mdYears_perm_keys hnd).mem_iff.mp hy
  cases hv : alookup y inner with
  | none => exact absurd hykey (alookup_eq_none_iff.mp hv)
  | some v =>
    have hvne : v ≠ [] := hvals (y, v) (alookup_some_mem hv)
    have hlen : (mdSortBucket ((alookup y inner).getD [])).length = v.length := by
      rw [hv, Option.getD_some, mdSortBucket]
      exact (List.mergeSort_perm _ _).length_eq
    have hempty : (mdSortBucket ((alookup y inner).getD [])).isEmpty = false := by
      cases hsb : mdSortBucket ((alookup y inner).getD []) with
      | nil =>
        rw [hsb] at hlen
        cases v with
        | nil => exact absurd rfl hvne
        | cons a l => simp at hlen
      | cons a l => rfl
    rw [mdYearRows, mdYearCount]
    simp only [hempty, Bool.false_eq_true, if_false]
    rw [List.length_map]

theorem mdRows_length_eq_total (files : List FD) :
    (mdRows files).length = mdTotal files := by
  have hgood : GoodState (group_files files) := by
    rw [group_files_eq_ggroup]; exact ggroup_good _ _ _
  rw [mdRows, mdTotal, List.length_flatMap]
  congr 1
  apply List.map_congr_left
  intro d _
  simp only [Function.comp_apply]
  rw [List.length_flatMap]
  congr 1
  apply List.map_congr_left
  intro y hy
  simp only [Function.comp_apply]
  have hnd := goodstate_keys_nodup_getD hgood d
  have hvals : ∀ q ∈ (alookup d (group_files files)).getD [], q.2 ≠ [] := by
    cases hd : alookup d (group_files files) with
    | none => simp
    | some inner =>
      rw [Option.getD_some]
      exact hgood.2.2 _ (alookup_some_mem hd)
  exact mdYearRows_length hnd hvals y hy

/-- C8: the total reported by the Markdown generator equals the number of
enumerated (post-filter) files, which is also the number of table rows it
renders — the count incremented before the dead empty-bucket check is
harmless because grouping never creates an empty bucket. -/
theorem c8_total_equals_rows (files : List FD)
    (h : ∀ f ∈ files, f.parts ≠ []) :
    (generate_markdown_inventory files).2 = files.length ∧
    (generate_markdown_inventory files).2 = (mdRows files).length :=
  ⟨mdTotal_eq_length files h, (mdRows_length_eq_total files).symm⟩

/-- Witness for C8: the spec's example tree `A/2010/x.pdf`,
`A/2010/y.pdf`, `B/z.pdf` reports a total of 3. -/
theorem c8_total_equals_rows_witness :
    (generate_markdown_inventory
      [⟨[lit "A", lit "2010", lit "x.pdf"]⟩,
       ⟨[lit "A", lit "2010", lit "y.pdf"]⟩,
       ⟨[lit "B", lit "z.pdf"]⟩]).2 = 3 :=
  (c8_total_equals_rows
    [⟨[lit "A", lit "2010", lit "x.pdf"]⟩,
     ⟨[lit "A", lit "2010", lit "y.pdf"]⟩,
     ⟨[lit "B", lit "z.pdf"]⟩]
    (by intro f hf; fin_cases hf <;> simp)).1

/-! Determinism up to enumeration order (C9): sorted output is unique. -/

theorem nodup_key_inj {α κ : Type} {key : α → κ} {l : List α}
    (h : (l.map key).Nodup) :
    ∀ a ∈ l, ∀ b ∈ l, key a = key b → a = b := by
  intro a ha b hb heq
  by_contra hne
  have hpw : (l.map key).Pairwise (fun x y => x ≠ y) := h
  rw [List.pairwise_map] at hpw
  have hsym : Symmetric fun x y : α => key x ≠ key y := by
    intro x y hxy
    exact fun e => hxy e.symm
  exact hpw.forall hsym ha hb hne heq

theorem sorted_unique {α κ : Type} [LinearOrder κ] (key : α → κ) :
    ∀ {l₁ l₂ : List α}, l₁.Perm l₂ →
      (∀ a ∈ l₁, ∀ b ∈ l₁, key a = key b → a = b) →
      l₁.Pairwise (fun a b => key a ≤ key b) →
      l₂.Pairwise (fun a b => key a ≤ key b) → l₁ = l₂ := by
  intro l₁
  induction l₁ with
  | nil =>
    intro l₂ hp _ _ _
    exact (List.Perm.eq_nil hp.symm).symm
  | cons a t₁ ih =>
    intro l₂ hp hinj h₁ h₂
    cases l₂ with
    | nil => exact absurd hp.length_eq (by simp)
    | cons b t₂ =>
      by_cases hab : a = b
      · subst hab
        have ht := hp.cons_inv
        have htail := ih ht
          (fun x hx y hy => hinj x (List.mem_cons_of_mem _ hx) y
            (List.mem_cons_of_mem _ hy))
          (List.pairwise_cons.mp h₁).2 (List.pairwise_cons.mp h₂).2
        rw [htail]
      · exfalso
        have hamem : a ∈ b :: t₂ := hp.mem_iff.mp (List.mem_cons_self a t₁)
        have ha2 : a ∈ t₂ := by
          rcases List.mem_cons.mp hamem with h | h
          · exact absurd h hab
          · exact h
        have hbmem : b ∈ a :: t₁ := hp.mem_iff.mpr (List.mem_cons_self b t₂)
        have hb1 : b ∈ t₁ := by
          rcases List.mem_cons.mp hbmem with h | h
          · exact absurd h.symm hab
          · exact h
        have hkab : key a ≤ key b := (List.pairwise_cons.mp h₁).1 b hb1
        have hkba : key b ≤ key a := (List.pairwise_cons.mp h₂).1 a ha2
        exact hab (hinj a (List.mem_cons_self _ _) b
          (List.mem_cons_of_mem _ hb1) (le_antisymm hkab hkba))

theorem mergeSort_eq_of_perm_keyinj {α κ : Type} [LinearOrder κ] (key : α → κ)
    {l₁ l₂ : List α} (hp : l₁.Perm l₂)
    (hinj : ∀ a ∈ l₁, ∀ b ∈ l₁, key a = key b → a = b) :
    l₁.mergeSort (keyLe key) = l₂.mergeSort (keyLe key) := by
  apply sorted_unique key
  · exact ((List.mergeSort_perm l₁ _).trans hp).trans
      (List.mergeSort_perm l₂ _).symm
  · intro a ha b hb
    exact hinj a ((List.mergeSort_perm l₁ _).mem_iff.mp ha) b
      ((List.mergeSort_perm l₁ _).mem_iff.mp hb)
  · exact mergeSort_keyLe_pairwise key l₁
  · exact mergeSort_keyLe_pairwise key l₂

theorem group_files_good (files : List FD) : GoodState (group_files files) := by
  rw [group_files_eq_ggroup]
  exact ggroup_good _ _ _

theorem htmlGrouped_good (entries : List Entry) : GoodState (htmlGrouped entries) := by
  rw [htmlGrouped_eq_ggroup]
  exact ggroup_good _ _ _

theorem md_keys_perm {files₁ files₂ : List FD} (hp : files₁.Perm files₂) :
    ((group_files files₁).map Prod.fst).Perm
      ((group_files files₂).map Prod.fst) := by
  refine (List.perm_ext_iff_of_nodup (group_files_good files₁).1
    (group_files_good files₂).1).mpr ?_
  intro t
  rw [group_files_eq_ggroup, group_files_eq_ggroup,
    ggroup_mem_keys, ggroup_mem_keys]
  constructor
  · rintro ⟨f, hf, ht⟩
    exact ⟨f, hp.mem_iff.mp hf, ht⟩
  · rintro ⟨f, hf, ht⟩
    exact ⟨f, hp.mem_iff.mpr hf, ht⟩

theorem mdDirs_eq {files₁ files₂ : List FD} (hp : files₁.Perm files₂) :
    mdDirs (group_files files₁) = mdDirs (group_files files₂) := by
  rw [mdDirs, mdDirs]
  exact mergeSort_eq_of_perm_keyinj _ (md_keys_perm hp) (fun a _ b _ h => h)

theorem md_inner_keys_mem (files : List FD) (d : Str) (y : Option Nat) :
    y ∈ ((alookup d (group_files files)).getD []).map Prod.fst ↔
      ∃ f ∈ files, f.parts.head? = some d ∧ findYearFT f.parts = y := by
  rw [group_files_eq_ggroup]
  cases hd : alookup d (ggroup (fun f : FD => f.parts.head?)
      (fun f => findYearFT f.parts) files) with
  | none =>
    simp only [Option.getD_none, List.map_nil]
    constructor
    · intro h
      exact absurd h (List.not_mem_nil y)
    · rintro ⟨f, hf, h1, h2⟩
      have hmem : d ∈ (ggroup (fun f : FD => f.parts.head?)
          (fun f => findYearFT f.parts) files).map Prod.fst :=
        (ggroup_mem_keys _ _ _ _).mpr ⟨f, hf, h1⟩
      exact absurd hmem (alookup_eq_none_iff.mp hd)
  | some inner =>
    rw [Option.getD_some]
    exact ggroup_inner_mem hd y

theorem md_inner_keys_perm {files₁ files₂ : List FD} (hp : files₁.Perm files₂)
    (d : Str) :
    (((alookup d (group_files files₁)).getD []).map Prod.fst).Perm
      (((alookup d (group_files files₂)).getD []).map Prod.fst) := by
  refine (List.perm_ext_iff_of_nodup
    (goodstate_keys_nodup_getD (group_files_good files₁) d)
    (goodstate_keys_nodup_getD (group_files_good files₂) d)).mpr ?_
  intro y
  rw [md_inner_keys_mem, md_inner_keys_mem]
  constructor
  · rintro ⟨f, hf, h⟩
    exact ⟨f, hp.mem_iff.mp hf, h⟩
  · rintro ⟨f, hf, h⟩
    exact ⟨f, hp.mem_iff.mpr hf, h⟩

theorem contains_eq_of_perm_mem {keys₁ keys₂ : List (Option Nat)}
    (hp : keys₁.Perm keys₂) :
    keys₁.contains none = keys₂.contains none := by
  cases hb : keys₂.contains none with
  | true => exact contains_none_iff.mpr (hp.mem_iff.mpr (contains_none_iff.mp hb))
  | false =>
    cases hb1 : keys₁.contains none with
    | false => rfl
    | true =>
      have := hp.mem_iff.mp (contains_none_iff.mp hb1)
      rw [contains_none_iff.mpr this] at hb
      exact hb

theorem mdYears_eq {files₁ files₂ : List FD} (hp : files₁.Perm files₂) (d : Str) :
    mdYears ((alookup d (group_files files₁)).getD []) =
      mdYears ((alookup d (group_files files₂)).getD []) := by
  have hkperm := md_inner_keys_perm hp d
  rw [mdYears, mdYears]
  rw [mergeSort_eq_of_perm_keyinj (fun n : Nat => n) (hkperm.filterMap id)
    (fun a _ b _ h => h)]
  rw [contains_eq_of_perm_mem hkperm]

theorem mdSortBucket_lookup_eq {files₁ files₂ : List FD}
    (hp : files₁.Perm files₂)
    (hnd : (files₁.map (fun f => joinParts f.parts)).Nodup)
    (d : Str) (y : Option Nat) :
    mdSortBucket ((alookup y ((alookup d (group_files files₁)).getD [])).getD []) =
      mdSortBucket ((alookup y ((alookup d (group_files files₂)).getD [])).getD []) := by
  have h₁ : (alookup y ((alookup d (group_files files₁)).getD [])).getD []
      = files₁.filter (fun f => decide (f.parts.head? = some d) &&
          decide (findYearFT f.parts = y)) := mdBucket_eq_filter files₁ d y
  have h₂ : (alookup y ((alookup d (group_files files₂)).getD [])).getD []
      = files₂.filter (fun f => decide (f.parts.head? = some d) &&
          decide (findYearFT f.parts = y)) := mdBucket_eq_filter files₂ d y
  rw [mdSortBucket, mdSortBucket, h₁, h₂]
  apply mergeSort_eq_of_perm_keyinj _ (hp.filter _)
  intro a ha b hb
  exact nodup_key_inj hnd a (List.mem_of_mem_filter ha) b
    (List.mem_of_mem_filter hb)

theorem mdYearBlock_eq {files₁ files₂ : List FD} (hp : files₁.Perm files₂)
    (hnd : (files₁.map (fun f => joinParts f.parts)).Nodup)
    (d : Str) (y : Option Nat) :
    mdYearBlock ((alookup d (group_files files₁)).getD []) y =
      mdYearBlock ((alookup d (group_files files₂)).getD []) y := by
  simp only [mdYearBlock, mdYearRows]
  rw [mdSortBucket_lookup_eq hp hnd d y]

theorem mdYearCount_perm_eq {files₁ files₂ : List FD} (hp : files₁.Perm files₂)
    (hnd : (files₁.map (fun f => joinParts f.parts)).Nodup)
    (d : Str) (y : Option Nat) :
    mdYearCount ((alookup d (group_files files₁)).getD []) y =
      mdYearCount ((alookup d (group_files files₂)).getD []) y := by
  rw [mdYearCount, mdYearCount, mdSortBucket_lookup_eq hp hnd d y]

theorem mdDirBlock_eq {files₁ files₂ : List FD} (hp : files₁.Perm files₂)
    (hnd : (files₁.map (fun f => joinParts f.parts)).Nodup) (d : Str) :
    mdDirBlock (group_files files₁) d = mdDirBlock (group_files files₂) d := by
  rw [mdDirBlock, mdDirBlock, mdYears_eq hp d]
  rw [show (fun y => mdYearBlock ((alookup d (group_files files₁)).getD []) y)
      = (fun y => mdYearBlock ((alookup d (group_files files₂)).getD []) y) from
    funext (fun y => mdYearBlock_eq hp hnd d y)]

theorem md_invariant {files₁ files₂ : List FD} (hp : files₁.Perm files₂)
    (hnd : (files₁.map (fun f => joinParts f.parts)).Nodup) :
    generate_markdown_inventory files₁ = generate_markdown_inventory files₂ := by
  rw [generate_markdown_inventory, generate_markdown_inventory]
  have hlines : mdLines files₁ = mdLines files₂ := by
    rw [mdLines, mdLines, mdDirs_eq hp]
    rw [show (fun d => mdDirBlock (group_files files₁) d)
        = (fun d => mdDirBlock (group_files files₂) d) from
      funext (fun d => mdDirBlock_eq hp hnd d)]
  have htotal : mdTotal files₁ = mdTotal files₂ := by
    rw [mdTotal, mdTotal, mdDirs_eq hp]
    congr 1
    apply List.map_congr_left
    intro d _
    rw [mdYears_eq hp d]
    congr 1
    apply List.map_congr_left
    intro y _
    exact mdYearCount_perm_eq hp hnd d y
  rw [hlines, htotal]

theorem html_keys_perm {entries₁ entries₂ : List Entry}
    (hp : entries₁.Perm entries₂) :
    ((htmlGrouped entries₁).map Prod.fst).Perm
      ((htmlGrouped entries₂).map Prod.fst) := by
  refine (List.perm_ext_iff_of_nodup (htmlGrouped_good entries₁).1
    (htmlGrouped_good entries₂).1).mpr ?_
  intro t
  rw [htmlGrouped_eq_ggroup, htmlGrouped_eq_ggroup,
    ggroup_mem_keys, ggroup_mem_keys]
  constructor
  · rintro ⟨e, he, ht⟩
    exact ⟨e, hp.mem_iff.mp he, ht⟩
  · rintro ⟨e, he, ht⟩
    exact ⟨e, hp.mem_iff.mpr he, ht⟩

theorem htmlDirs_eq {entries₁ entries₂ : List Entry}
    (hp : entries₁.Perm entries₂) :
    htmlDirs (htmlGrouped entries₁) = htmlDirs (htmlGrouped entries₂) := by
  rw [htmlDirs, htmlDirs]
  exact mergeSort_eq_of_perm_keyinj _ (html_keys_perm hp) (fun a _ b _ h => h)

theorem html_inner_keys_mem (entries : List Entry) (d : Str) (y : YKey) :
    y ∈ ((alookup d (htmlGrouped entries)).getD []).map Prod.fst ↔
      ∃ e ∈ entries, topDir e.path = d ∧ yearKey e = y := by
  rw [htmlGrouped_eq_ggroup]
  cases hd : alookup d (ggroup (fun e : Entry => some (topDir e.path))
      yearKey entries) with
  | none =>
    simp only [Option.getD_none, List.map_nil]
    constructor
    · intro h
      exact absurd h (List.not_mem_nil y)
    · rintro ⟨e, he, h1, h2⟩
      have hmem : d ∈ (ggroup (fun e : Entry => some (topDir e.path))
          yearKey entries).map Prod.fst :=
        (ggroup_mem_keys _ _ _ _).mpr ⟨e, he, by rw [h1]⟩
      exact absurd hmem (alookup_eq_none_iff.mp hd)
  | some inner =>
    rw [Option.getD_some]
    have h := ggroup_inner_mem hd y
    rw [h]
    constructor
    · rintro ⟨e, he, h1, h2⟩
      exact ⟨e, he, by injection h1, h2⟩
    · rintro ⟨e, he, h1, h2⟩
      exact ⟨e, he, by rw [h1], h2⟩

theorem html_inner_keys_perm {entries₁ entries₂ : List Entry}
    (hp : entries₁.Perm entries₂) (d : Str) :
    (((alookup d (htmlGrouped entries₁)).getD []).map Prod.fst).Perm
      (((alookup d (htmlGrouped entries₂)).getD []).map Prod.fst) := by
  refine (List.perm_ext_iff_of_nodup
    (goodstate_keys_nodup_getD (htmlGrouped_good entries₁) d)
    (goodstate_keys_nodup_getD (htmlGrouped_good entries₂) d)).mpr ?_
  intro y
  rw [html_inner_keys_mem, html_inner_keys_mem]
  constructor
  · rintro ⟨e, he, h⟩
    exact ⟨e, hp.mem_iff.mp he, h⟩
  · rintro ⟨e, he, h⟩
    exact ⟨e, hp.mem_iff.mpr he, h⟩

theorem updA_append {α β : Type} [DecidableEq α] {k : α} {v : β}
    {m : List (α × β)} (h : k ∉ m.map Prod.fst) :
    updA k v m = m ++ [(k, v)] := by
  induction m with
  | nil => rfl
  | cons kv rest ih =>
    rw [List.map_cons, List.mem_cons] at h
    push_neg at h
    rw [updA, if_neg (fun he => h.1 he.symm), ih h.2]
    rfl

theorem foldl_updA_eq_append :
    ∀ (l : List (YKey × List Entry)) (m : List (Str × List Entry)),
      (l.map (fun p => displayOf p.1)).Nodup →
      (∀ p ∈ l, displayOf p.1 ∉ m.map Prod.fst) →
      l.foldl (fun m p => updA (displayOf p.1) (htmlSortFiles p.2) m) m =
        m ++ l.map (fun p => (displayOf p.1, htmlSortFiles p.2)) := by
  intro l
  induction l with
  | nil => intro m _ _; simp
  | cons p rest ih =>
    intro m hnd hfresh
    rw [List.map_cons, List.nodup_cons] at hnd
    rw [List.foldl_cons, updA_append (hfresh p (List.mem_cons_self _ _))]
    rw [ih (m ++ [(displayOf p.1, htmlSortFiles p.2)]) hnd.2 ?_]
    · simp
    · intro q hq
      rw [List.map_append, List.mem_append]
      push_neg
      refine ⟨hfresh q (List.mem_cons_of_mem _ hq), ?_⟩
      simp only [List.map_cons, List.map_nil, List.mem_singleton]
      intro he
      exact hnd.1 (he ▸ List.mem_map.mpr ⟨q, hq, rfl⟩)

theorem displayOf_inj_fun : Function.Injective displayOf :=
  fun _ _ h => displayOf_injective h

theorem year_map_eq_map {inner : List (YKey × List Entry)}
    (hnd : (inner.map Prod.fst).Nodup) :
    year_map inner =
      inner.map (fun p => (displayOf p.1, htmlSortFiles p.2)) := by
  have hdisp : (inner.map (fun p => displayOf p.1)).Nodup := by
    have heq : inner.map (fun p => displayOf p.1) =
        (inner.map Prod.fst).map displayOf := by
      rw [List.map_map]
      rfl
    rw [heq]
    exact hnd.map displayOf_inj_fun
  rw [year_map, foldl_updA_eq_append inner [] hdisp (by simp)]
  rfl

theorem alookup_map_pair {α γ β δ : Type} [DecidableEq α] [DecidableEq γ]
    {g : α → γ} (hg : Function.Injective g) (h : β → δ)
    (l : List (α × β)) (k : α) :
    alookup (g k) (l.map (fun p => (g p.1, h p.2))) = (alookup k l).map h := by
  induction l with
  | nil => simp [alookup]
  | cons p rest ih =>
    by_cases hk : k = p.1
    · subst hk
      rw [List.map_cons, alookup, alookup, if_pos rfl, if_pos rfl]
      rfl
    · rw [List.map_cons, alookup, alookup,
        if_neg (fun he => hk (hg he)), if_neg hk]
      exact ih

theorem htmlSortFiles_lookup_eq {entries₁ entries₂ : List Entry}
    (hp : entries₁.Perm entries₂)
    (hne : (entries₁.map (fun e => lowerStr e.path)).Nodup)
    (d : Str) (k : YKey) :
    htmlSortFiles ((alookup k ((alookup d (htmlGrouped entries₁)).getD [])).getD []) =
      htmlSortFiles ((alookup k ((alookup d (htmlGrouped entries₂)).getD [])).getD []) := by
  have h₁ : (alookup k ((alookup d (htmlGrouped entries₁)).getD [])).getD []
      = entries₁.filter (fun e => decide (topDir e.path = d) &&
          decide (yearKey e = k)) := htmlBucket_eq_filter entries₁ d k
  have h₂ : (alookup k ((alookup d (htmlGrouped entries₂)).getD [])).getD []
      = entries₂.filter (fun e => decide (topDir e.path = d) &&
          decide (yearKey e = k)) := htmlBucket_eq_filter entries₂ d k
  rw [htmlSortFiles, htmlSortFiles, h₁, h₂]
  apply mergeSort_eq_of_perm_keyinj _ (hp.filter _)
  intro a ha b hb
  exact nodup_key_inj hne a (List.mem_of_mem_filter ha) b
    (List.mem_of_mem_filter hb)

theorem year_map_lookup_eq {entries₁ entries₂ : List Entry}
    (hp : entries₁.Perm entries₂)
    (hne : (entries₁.map (fun e => lowerStr e.path)).Nodup)
    (d : Str) (yn : Str) :
    (alookup yn (year_map ((alookup d (htmlGrouped entries₁)).getD []))).getD [] =
      (alookup yn (year_map ((alookup d (htmlGrouped entries₂)).getD []))).getD [] := by
  have hkp := html_inner_keys_perm hp d
  have hnd₁ := goodstate_keys_nodup_getD (htmlGrouped_good entries₁) d
  have hnd₂ := goodstate_keys_nodup_getD (htmlGrouped_good entries₂) d
  have hgd : ∀ (o : Option (List Entry)),
      (o.map htmlSortFiles).getD [] = htmlSortFiles (o.getD []) := by
    intro o
    cases o with
    | none => simp [htmlSortFiles]
    | some v => rfl
  by_cases hex : ∃ k ∈ ((alookup d (htmlGrouped entries₁)).getD []).map Prod.fst,
      displayOf k = yn
  · obtain ⟨k, hk, rfl⟩ := hex
    rw [year_map_eq_map hnd₁, year_map_eq_map hnd₂]
    rw [alookup_map_pair displayOf_inj_fun htmlSortFiles _ k,
      alookup_map_pair displayOf_inj_fun htmlSortFiles _ k]
    rw [hgd, hgd]
    exact htmlSortFiles_lookup_eq hp hne d k
  · have hex₂ : ¬ ∃ k ∈ ((alookup d (htmlGrouped entries₂)).getD []).map Prod.fst,
        displayOf k = yn := by
      rintro ⟨k, hk, he⟩
      exact hex ⟨k, hkp.mem_iff.mpr hk, he⟩
    have e₁ : alookup yn (year_map ((alookup d (htmlGrouped entries₁)).getD []))
        = none := by
      rw [alookup_eq_none_iff]
      intro hmem
      exact hex (year_map_keys_mem.mp hmem)
    have e₂ : alookup yn (year_map ((alookup d (htmlGrouped entries₂)).getD []))
        = none := by
      rw [alookup_eq_none_iff]
      intro hmem
      exact hex₂ (year_map_keys_mem.mp hmem)
    rw [e₁, e₂]

theorem year_map_keys_perm {entries₁ entries₂ : List Entry}
    (hp : entries₁.Perm entries₂) (d : Str) :
    ((year_map ((alookup d (htmlGrouped entries₁)).getD [])).map Prod.fst).Perm
      ((year_map ((alookup d (htmlGrouped entries₂)).getD [])).map Prod.fst) := by
  have hkp := html_inner_keys_perm hp d
  refine (List.perm_ext_iff_of_nodup (year_map_keys_nodup _)
    (year_map_keys_nodup _)).mpr ?_
  intro s
  rw [year_map_keys_mem, year_map_keys_mem]
  constructor
  · rintro ⟨k, hk, hs⟩
    exact ⟨k, hkp.mem_iff.mp hk, hs⟩
  · rintro ⟨k, hk, hs⟩
    exact ⟨k, hkp.mem_iff.mpr hk, hs⟩

theorem contains_eq_of_perm_str {l₁ l₂ : List Str} (hp : l₁.Perm l₂) (a : Str) :
    l₁.contains a = l₂.contains a := by
  cases hb : l₂.contains a with
  | true =>
    have : a ∈ l₂ := List.elem_iff.mp hb
    exact List.elem_iff.mpr (hp.mem_iff.mpr this)
  | false =>
    cases hb1 : l₁.contains a with
    | false => rfl
    | true =>
      have hmem : a ∈ l₂ := hp.mem_iff.mp (List.elem_iff.mp hb1)
      have hc : l₂.contains a = true := List.elem_iff.mpr hmem
      rw [hc] at hb
      exact hb

theorem htmlSortedYears_eq {entries₁ entries₂ : List Entry}
    (hp : entries₁.Perm entries₂) (d : Str) :
    htmlSortedYears (year_map ((alookup d (htmlGrouped entries₁)).getD [])) =
      htmlSortedYears (year_map ((alookup d (htmlGrouped entries₂)).getD [])) := by
  have hymp := year_map_keys_perm hp d
  rw [htmlSortedYears, htmlSortedYears]
  rw [mergeSort_eq_of_perm_keyinj natDigits (hymp.filter _) ?_]
  · rw [contains_eq_of_perm_str hymp]
  · intro a ha b hb heq
    have hform : ∀ s ∈ ((year_map ((alookup d (htmlGrouped entries₁)).getD
        [])).map Prod.fst).filter
          (fun s => !decide (s = lit "No Year Folder")), ∃ n, s = natChars n := by
      intro s hs
      have hs3 := List.mem_of_mem_filter hs
      have hs4 : ¬ s = lit "No Year Folder" := by
        have := List.of_mem_filter hs
        simpa using this
      obtain ⟨k, -, rfl⟩ := year_map_keys_mem.mp hs3
      cases k with
      | yr n => exact ⟨n, rfl⟩
      | noYear => exact absurd rfl hs4
    obtain ⟨n, rfl⟩ := hform a ha
    obtain ⟨m, rfl⟩ := hform b hb
    rw [natDigits_natChars, natDigits_natChars] at heq
    rw [heq]

theorem htmlDirBlock_eq {entries₁ entries₂ : List Entry}
    (hp : entries₁.Perm entries₂)
    (hne : (entries₁.map (fun e => lowerStr e.path)).Nodup) (d : Str) :
    htmlDirBlock (htmlGrouped entries₁) d = htmlDirBlock (htmlGrouped entries₂) d := by
  rw [htmlDirBlock, htmlDirBlock, htmlSortedYears_eq hp d]
  rw [show (fun yn => htmlYearBlock yn
      ((alookup yn (year_map ((alookup d (htmlGrouped entries₁)).getD []))).getD []))
      = (fun yn => htmlYearBlock yn
      ((alookup yn (year_map ((alookup d (htmlGrouped entries₂)).getD []))).getD []))
    from funext (fun yn => by rw [year_map_lookup_eq hp hne d yn])]

theorem html_invariant {entries₁ entries₂ : List Entry}
    (hp : entries₁.Perm entries₂)
    (hne : (entries₁.map (fun e => lowerStr e.path)).Nodup) :
    generate_html_content entries₁ = generate_html_content entries₂ := by
  rw [generate_html_content, generate_html_content, htmlDirs_eq hp]
  rw [show (fun d => htmlDirBlock (htmlGrouped entries₁) d)
      = (fun d => htmlDirBlock (htmlGrouped entries₂) d) from
    funext (fun d => htmlDirBlock_eq hp hne d)]

/-- C9: both generators are deterministic functions of the input file
set: any two enumerations of the same tree or listing (permutations of
each other, with distinct relative paths — distinct even
case-insensitively for the HTML variant, whose sort key is lowercased)
produce byte-identical output, including the final HTML file for any
fixed template. -/
theorem c9_generators_deterministic (files₁ files₂ : List FD)
    (entries₁ entries₂ : List Entry)
    (hpf : files₁.Perm files₂) (hpe : entries₁.Perm entries₂)
    (hndf : (files₁.map (fun f => joinParts f.parts)).Nodup)
    (hnde : (entries₁.map (fun e => lowerStr e.path)).Nodup) :
    generate_markdown_inventory files₁ = generate_markdown_inventory files₂ ∧
    generate_html_content entries₁ = generate_html_content entries₂ ∧
    ∀ (te : Bool) (tpl : Str),
      generate_html te tpl entries₁ entries₁.length =
        generate_html te tpl entries₂ entries₂.length := by
  refine ⟨md_invariant hpf hndf, html_invariant hpe hnde, ?_⟩
  intro te tpl
  rw [generate_html, generate_html]
  rw [html_invariant hpe hnde, hpe.length_eq]

/-- Witness for C9: two enumeration orders of the same two-file tree
produce identical outputs. -/
theorem c9_generators_deterministic_witness :
    generate_markdown_inventory
      [⟨[lit "A", lit "2010", lit "x.pdf"]⟩, ⟨[lit "B", lit "z.pdf"]⟩] =
    generate_markdown_inventory
      [⟨[lit "B", lit "z.pdf"]⟩, ⟨[lit "A", lit "2010", lit "x.pdf"]⟩] :=
  (c9_generators_deterministic
    [⟨[lit "A", lit "2010", lit "x.pdf"]⟩, ⟨[lit "B", lit "z.pdf"]⟩]
    [⟨[lit "B", lit "z.pdf"]⟩, ⟨[lit "A", lit "2010", lit "x.pdf"]⟩]
    [⟨lit "A/x.pdf", lit "x.pdf", none⟩]
    [⟨lit "A/x.pdf", lit "x.pdf", none⟩]
    (by decide) (by decide) (by decide) (by decide)).1


end Snowden
